import Mathlib

/-!
# discopt: 0/1 knapsack by dynamic programming and by best-first branch and bound

A shallow embedding of `src/knapsack.cpp` and `src/bnb.hpp`.

Modelling conventions.

* A `long long` (`ll`) is an `Int`; every addition and subtraction of `long long` that the
  program performs is followed by `to_ll`, the wrap to 64 bits.  (The language leaves a signed
  overflow undefined; the wrap is what two's-complement hardware computes.)
* Every narrowing of a `long long` into an `int` (`goal_weight`, the `int` return value of
  `solve_dp` and `solve_bnb`, the backtrace column of `solve_dp`) is the explicit wrap `to_int`.
* A `double` is the fraction it is equal to, and every conversion and operation on `double`
  rounds its exact result to 53 significant binary digits, to nearest with ties to even
  (`double.round`), as IEEE 754 arithmetic in double precision does (no excess precision, no
  fused operation).  The lemmas `round_significand_range`, `round_significand_near` and
  `double_of_ll_exact` check the rounding against its definition.  Two results that C++ does
  not define as numbers are given a value, and no statement depends on the value chosen: a
  division by zero, and the conversion to `long long` of a `double` outside its range.
* `std::upper_bound` is the bisection that the implementations of the standard library run;
  on a range that is not sorted (cumulative sums that have wrapped) it is that bisection, not
  the result the standard specifies for sorted ranges, that the model follows.
* A failed `assert` aborts the program: functions that contain one return `Option`
  (`none` = abort) or `Run` (`Run.abort`).
* `Run.undefined` stands for a run that leaves defined behaviour or is ended by an exception:
  the `int` column counter of `solve_dp` overflows, a vector is indexed outside its bounds,
  `resize` is given a negative size, more than `max_n` items are copied into the arrays of
  `solve_bnb`.  The memory needed by the table and by the frontier is not modelled.
* The loop of `bnb_optimize` is driven by a step budget (`fuel`); `Run.timeout` is an artefact
  of the model.
* `std::sort` and `std::priority_queue` leave the order of equivalent elements open; the model
  fixes one order (`sort_items`, `pq_pop`), and the concrete runs stated below meet no tie.
-/

namespace Discopt

/-! ## Machine numbers -/

/-- Conversion of a `long long` to a 32-bit `int`: the value modulo `2 ^ 32` taken in
`[-2 ^ 31, 2 ^ 31)`, which is the result C++20 defines and the one two's-complement
implementations gave before. -/
def to_int (x : Int) : Int := (x + 2 ^ 31) % 2 ^ 32 - 2 ^ 31

/-- The largest `int`. -/
def INT_MAX : Int := 2 ^ 31 - 1

/-- The result of an addition or a subtraction of `long long` brought back to 64 bits: the
value modulo `2 ^ 64` taken in `[-2 ^ 63, 2 ^ 63)`, which is what two's-complement hardware
computes (the language leaves a signed overflow undefined). -/
def to_ll (x : Int) : Int := (x + 2 ^ 63) % 2 ^ 64 - 2 ^ 63

/-- The largest `long long`. -/
def LLONG_MAX : Int := 2 ^ 63 - 1

/-- A finite `double`, held as the fraction `num / den` it is equal to (`den` is a power of
two and positive). -/
structure double where
  num : Int
  den : Nat
deriving Repr

/-- Number of binary digits of `n`, counted with at most `fuel` halvings. -/
def bit_length_aux : Nat → Nat → Nat
  | 0, _ => 0
  | fuel + 1, n => if n = 0 then 0 else bit_length_aux fuel (n / 2) + 1

/-- Number of binary digits of `n`: `0` for `0`, else `⌊log₂ n⌋ + 1`. -/
def bit_length (n : Nat) : Nat := bit_length_aux n n

/-- The integer `⌊log₂ (a / q)⌋` for positive `a` and `q`. -/
def floor_log2 (a q : Nat) : Int :=
  if (bit_length q : Int) ≤ bit_length a then
    (if q * 2 ^ (bit_length a - bit_length q) ≤ a then (bit_length a : Int) - bit_length q
      else (bit_length a : Int) - bit_length q - 1)
  else
    (if q ≤ a * 2 ^ (bit_length q - bit_length a) then (bit_length a : Int) - bit_length q
      else (bit_length a : Int) - bit_length q - 1)

/-- The numerator of `(a / q) / 2 ^ e`. -/
def scale_num (a : Nat) (e : Int) : Nat := if 0 ≤ e then a else a * 2 ^ (-e).toNat

/-- The denominator of `(a / q) / 2 ^ e`. -/
def scale_den (q : Nat) (e : Int) : Nat := if 0 ≤ e then q * 2 ^ e.toNat else q

/-- The integer nearest to `num / den`, the even one of the two when `num / den` lies half
way between two integers. -/
def round_half_even (num den : Nat) : Nat :=
  if den < 2 * (num % den) ∨ (2 * (num % den) = den ∧ (num / den) % 2 = 1) then num / den + 1
  else num / den

/-- Rounding of the positive fraction `a / q` to 53 significant binary digits, to nearest with
ties to the even significand: the significand `m` and the exponent `e` of the result
`m * 2 ^ e`, where `e = ⌊log₂ (a / q)⌋ - 52`. -/
def round_significand (a q : Nat) : Nat × Int :=
  (round_half_even (scale_num a (floor_log2 a q - 52)) (scale_den q (floor_log2 a q - 52)),
    floor_log2 a q - 52)

/-- The `double` nearest to the fraction `p / q` (`q` positive), ties to even: the rounding
that IEEE 754 applies to the exact result of every conversion and every operation.  The
range of the exponent is left out: no operation of the program on 64-bit operands overflows
or underflows. -/
def double.round (p : Int) (q : Nat) : double :=
  if p = 0 then ⟨0, 1⟩
  else
    let me := round_significand p.natAbs q
    if 0 ≤ me.2 then ⟨p.sign * (me.1 * 2 ^ me.2.toNat : Nat), 1⟩
    else ⟨p.sign * (me.1 : Nat), 2 ^ (-me.2).toNat⟩

/-- Conversion `(double)x` of a `long long`. -/
def double.of_ll (x : Int) : double := double.round x 1

/-- Operator `x + y` on `double`. -/
def double.add (x y : double) : double :=
  double.round (x.num * y.den + y.num * x.den) (x.den * y.den)

/-- Operator `x * y` on `double`. -/
def double.mul (x y : double) : double :=
  double.round (x.num * y.num) (x.den * y.den)

/-- Operator `x / y` on `double`.  A division by zero gives an infinity or a NaN in C++; the
model has neither and gives `2 ^ 1024`, beyond every `long long`; no statement depends on that
value. -/
def double.div (x y : double) : double :=
  if y.num = 0 then ⟨2 ^ 1024, 1⟩
  else double.round (y.num.sign * x.num * y.den) (x.den * y.num.natAbs)

/-- Operator `x > y` on `double`. -/
def double.gt (x y : double) : Bool := decide (y.num * x.den < x.num * y.den)

/-- Function `ceil` followed by the conversion `(ll)`: the least integer not below `x`.  When
it is outside the range of `long long` the conversion is undefined in C++; the model gives
`-2 ^ 63`, the value x86-64 produces, and no statement depends on that value. -/
def double.ceil_ll (x : double) : Int :=
  if -2 ^ 63 ≤ -((-x.num) / x.den) ∧ -((-x.num) / x.den) < 2 ^ 63 then -((-x.num) / x.den)
  else -2 ^ 63

/-! ## Data model (`knapsack.cpp`, lines 12-28) -/

/-- Constant `const int max_n = 10 * 1000;` -/
def max_n : Nat := 10 * 1000

/-- Type `item_t`: an item with the position it had in the input. -/
structure item_t where
  index : Nat
  weight : Int
  value : Int
deriving DecidableEq, Repr, Inhabited

/-- Type `context_t`: the data shared by all the states of one search. -/
structure context_t where
  n : Nat
  k : Int
  items : List item_t
  cumulative_value : List Int
  cumulative_weight : List Int
deriving DecidableEq, Repr, Inhabited

/-- Type `class State`: one node of the decision tree.  `taken_` models the `bitset<max_n>` by
the set of the positions whose bit is set. -/
structure State where
  context_ : context_t
  considered_ : Nat
  value_ : Int
  weight_ : Int
  heuristic_value_ : Int
  taken_ : Finset Nat
deriving DecidableEq

/-- Reading `items[i]`. -/
def item_at (items : List item_t) (i : Nat) : item_t := items.getD i default

/-- Reading `a[i]` in an array of `long long`. -/
def ll_at (a : List Int) (i : Nat) : Int := a.getD i 0

/-! ## The bound (`State::compute_heuristic_value`, lines 39-70) -/

/-- The bisection of `std::upper_bound` on the `len` positions from `first` on: the middle
position `first + len / 2` is compared with `val`, and the search goes on in the half before
it when `val < a[middle]`, in the half after it otherwise.  The first argument bounds the
number of steps. -/
def upper_bound_from (a : List Int) (val : Int) : Nat → Nat → Nat → Nat
  | 0, first, _ => first
  | fuel + 1, first, len =>
    if len = 0 then first
    else if val < ll_at a (first + len / 2) then upper_bound_from a val fuel first (len / 2)
    else upper_bound_from a val fuel (first + len / 2 + 1) (len - len / 2 - 1)

/-- Expression `std::upper_bound(a + first, a + last, val) - a`, as the bisection that the
implementations of the standard library run (`len` halvings at most).  When the range is
partitioned with respect to `val`, as it is when the cumulative weights increase, the result
is the furthermost position `i` in `[first, last]` such that no element of `[first, i)` is
greater than `val`. -/
def upper_bound (a : List Int) (first last : Nat) (val : Int) : Nat :=
  upper_bound_from a val (last - first) first (last - first)

/-- Local `ll remaining = context_->k - weight_;` -/
def State.remaining0 (s : State) : Int := to_ll (s.context_.k - s.weight_)

/-- Local `base_value = (considered_ == 0) ? 0 : cv[considered_ - 1]` -/
def State.base_value (s : State) : Int :=
  if s.considered_ = 0 then 0 else ll_at s.context_.cumulative_value (s.considered_ - 1)

/-- Local `base_weight = (considered_ == 0) ? 0 : cw[considered_ - 1]` -/
def State.base_weight (s : State) : Int :=
  if s.considered_ = 0 then 0 else ll_at s.context_.cumulative_weight (s.considered_ - 1)

/-- Local `const int goal_weight = base_weight + remaining;`: the sum of two `long long` is
narrowed to an `int`. -/
def State.goal_weight (s : State) : Int := to_int (to_ll (s.base_weight + s.remaining0))

/-- Local `right = upper_bound(cw + considered_, cw + n, goal_weight) - cw` -/
def State.right_index (s : State) : Nat :=
  upper_bound s.context_.cumulative_weight s.considered_ s.context_.n s.goal_weight

/-- The value of `hv` after the block `if(right > considered_)`: `double hv = value_;` and,
in the block, `hv += cv[right - 1] - base_value;`, where the difference of two `long long` is
converted to `double` before it is added. -/
def State.hv_whole (s : State) : double :=
  if s.right_index > s.considered_ then
    double.add (double.of_ll s.value_)
      (double.of_ll (to_ll (ll_at s.context_.cumulative_value (s.right_index - 1) - s.base_value)))
  else double.of_ll s.value_

/-- The value of `remaining` after the block `if(right > considered_)`. -/
def State.remaining1 (s : State) : Int :=
  if s.right_index > s.considered_ then
    to_ll (s.remaining0 -
      to_ll (ll_at s.context_.cumulative_weight (s.right_index - 1) - s.base_weight))
  else s.remaining0

/-- The value of `hv` after the block `if(right < n)`, where
`hv += remaining * (double)items[right].value / items[right].weight;` multiplies, divides and
adds in `double`. -/
def State.hv_final (s : State) : double :=
  if s.right_index < s.context_.n then
    double.add s.hv_whole
      (double.div
        (double.mul (double.of_ll s.remaining1)
          (double.of_ll (item_at s.context_.items s.right_index).value))
        (double.of_ll (item_at s.context_.items s.right_index).weight))
  else s.hv_whole

/-- Method `State::compute_heuristic_value`: `none` when one of the two assertions fails,
otherwise the state with `heuristic_value_` set to `(ll)ceil(hv)`. -/
def State.compute_heuristic_value (s : State) : Option State :=
  if s.right_index > s.considered_ ∧ ¬ (s.remaining1 ≥ 0) then none
  else if s.right_index < s.context_.n ∧
      ¬ (s.remaining1 < (item_at s.context_.items s.right_index).weight) then none
  else some { s with heuristic_value_ := s.hv_final.ceil_ll }

/-! ## The state (`class State`, lines 72-132) -/

/-- The state on which the constructor `State(context)` runs `compute_heuristic_value`. -/
def State.start (context : context_t) : State :=
  { context_ := context, considered_ := 0, value_ := 0, weight_ := 0,
    heuristic_value_ := 0, taken_ := ∅ }

/-- Method `State::State(const context_t*)`; the constructor runs `compute_heuristic_value`. -/
def State.new (context : context_t) : Option State :=
  State.compute_heuristic_value
    { context_ := context, considered_ := 0, value_ := 0, weight_ := 0,
      heuristic_value_ := 0, taken_ := ∅ }

/-- Method `State::value` -/
def State.value (s : State) : Int := s.value_

/-- Method `State::heuristicValue` -/
def State.heuristicValue (s : State) : Int := s.heuristic_value_

/-- Method `State::leaf` -/
def State.leaf (s : State) : Bool := decide (s.considered_ = s.context_.n)

/-- Method `State::feasible` -/
def State.feasible (s : State) : Bool := decide (s.weight_ ≤ s.context_.k)

/-- Method `State::left`: skip item `considered_`. -/
def State.left (s : State) : Option State :=
  if s.leaf then none
  else if !s.feasible then none
  else State.compute_heuristic_value { s with considered_ := s.considered_ + 1 }

/-- Method `State::right`: take item `considered_`; the two `+=` are additions of
`long long`. -/
def State.right (s : State) : Option State :=
  if s.leaf then none
  else if !s.feasible then none
  else State.compute_heuristic_value
    { s with
      considered_ := s.considered_ + 1
      value_ := to_ll (s.value_ + (item_at s.context_.items s.considered_).value)
      weight_ := to_ll (s.weight_ + (item_at s.context_.items s.considered_).weight)
      taken_ := insert s.considered_ s.taken_ }

/-- Method `State::operator<` -/
def State.lt (s other : State) : Bool := decide (s.considered_ < other.considered_)

/-- Method `State::to_boolean_array`: the first `n` bits of `taken_`. -/
def State.to_boolean_array (s : State) : List Bool :=
  (List.range s.context_.n).map (fun i => decide (i ∈ s.taken_))

/-! ## The search engine (`bnb.hpp`) -/

/-- Outcome of a run: a normal return, an abort on a failed `assert`, a run that leaves
defined behaviour, or an exhausted step budget. -/
inductive Run (α : Type) where
  | ret : α → Run α
  | abort : Run α
  | undefined : Run α
  | timeout : Run α
deriving DecidableEq, Repr

/-- The lambda `comparator` of `bnb_optimize` (lines 15-27). -/
def comparator (x y : State) : Bool :=
  if y.leaf && !x.leaf then true
  else if x.leaf && !y.leaf then false
  else decide (x.heuristicValue < y.heuristicValue) ||
    (decide (x.heuristicValue = y.heuristicValue) && x.lt y)

/-- Expression `pq.top()` followed by `pq.pop()` on a frontier kept as a list: a state that no
other state of the frontier is above in the order of `comparator`, and the frontier without
it. -/
def pq_pop : List State → Option (State × List State)
  | [] => none
  | x :: xs =>
    match pq_pop xs with
    | none => some (x, [])
    | some (m, rest) => if comparator x m then some (m, x :: rest) else some (x, m :: rest)

/-- Expression `pq.push(st)` -/
def pq_push (st : State) (pq : List State) : List State := st :: pq

/-- The variables of the loop of `bnb_optimize`: the frontier `pq`, the flag `solved`, the
state `*best`, and the number of states expanded so far (a ghost counter). -/
structure loop_vars where
  pq : List State
  solved : Bool
  best : State
  expanded : Nat
deriving DecidableEq

/-- One pass through the body of the loop (lines 36-60) for the popped state `st`, the frontier
`pq` being what is left after the pop; `none` when an assertion fails. -/
def bnb_body (st : State) (pq : List State) (solved : Bool) (best : State) (expanded : Nat) :
    Option loop_vars :=
  if !st.feasible then none
  else if st.leaf then
    if !solved || decide (best.value < st.value) then
      some { pq := pq, solved := true, best := st, expanded := expanded }
    else some { pq := pq, solved := solved, best := best, expanded := expanded }
  else if solved && decide (st.heuristicValue ≤ best.value) then
    some { pq := pq, solved := solved, best := best, expanded := expanded }
  else
    match st.left with
    | none => none
    | some left =>
      match st.right with
      | none => none
      | some right =>
        some { pq := (if right.feasible then pq_push right
                        (if left.feasible then pq_push left pq else pq)
                      else (if left.feasible then pq_push left pq else pq))
               solved := solved, best := best, expanded := expanded + 1 }

/-- The loop `while(!pq.empty())` of `bnb_optimize` (lines 32-61); the result holds the
variables at the exit. -/
def bnb_loop : Nat → loop_vars → Run loop_vars
  | 0, _ => Run.timeout
  | fuel + 1, v =>
    match pq_pop v.pq with
    | none => Run.ret v
    | some (st, pq) =>
      match bnb_body st pq v.solved v.best v.expanded with
      | none => Run.abort
      | some v' => bnb_loop fuel v'

/-- What `bnb_optimize` leaves behind: its return value, the state `*best`, and two ghost
values, the flag `solved` at exit and the number of expanded states. -/
structure bnb_result where
  ret : Bool
  best : State
  solved : Bool
  expanded : Nat
deriving DecidableEq

/-- Function `bnb_optimize(initial, best)` for a non-null `best`; the argument `best` is the
state `*best` before the call.  The last statement is `return best;`, a non-null pointer converted to
`bool`, hence `true`. -/
def bnb_optimize (fuel : Nat) (initial best : State) : Run bnb_result :=
  if !initial.feasible then
    Run.ret { ret := false, best := best, solved := false, expanded := 0 }
  else
    match bnb_loop fuel
        { pq := pq_push initial [], solved := false, best := best, expanded := 0 } with
    | Run.ret e =>
      Run.ret { ret := true, best := e.best, solved := e.solved, expanded := e.expanded }
    | Run.abort => Run.abort
    | Run.undefined => Run.undefined
    | Run.timeout => Run.timeout

/-! ## The two solvers (`knapsack.cpp`, lines 170-250) -/

/-- The lambda `comparator` of `solve_bnb`:
`(double)x.value / x.weight > (double)y.value / y.weight`, two divisions in `double`. -/
def density_gt (x y : item_t) : Bool :=
  double.gt (double.div (double.of_ll x.value) (double.of_ll x.weight))
    (double.div (double.of_ll y.value) (double.of_ll y.weight))

/-- Insertion of `x` in a list sorted by descending density. -/
def insert_sorted (x : item_t) : List item_t → List item_t
  | [] => [x]
  | y :: ys => if density_gt x y then x :: y :: ys else y :: insert_sorted x ys

/-- Expression `sort(items, items + n, comparator)`: the items in descending order of density;
items of equal density come in the order this insertion sort gives them. -/
def sort_items : List item_t → List item_t
  | [] => []
  | x :: xs => insert_sorted x (sort_items xs)

/-- Running sums of `long long` after the element `acc`. -/
def cumulative_from (acc : Int) : List Int → List Int
  | [] => []
  | x :: xs => to_ll (x + acc) :: cumulative_from (to_ll (x + acc)) xs

/-- The loop that fills `cumulative_value` and `cumulative_weight` (lines 215-223): the first
element is copied, every other one is added to the sum before it. -/
def cumulative : List Int → List Int
  | [] => []
  | x :: xs => x :: cumulative_from x xs

/-- The context that `solve_bnb` builds (lines 203-230). -/
def make_context (n : Nat) (k : Int) (it : List item_t) : context_t :=
  { n := n
    k := k
    items := sort_items (it.take n)
    cumulative_value := cumulative ((sort_items (it.take n)).map item_t.value)
    cumulative_weight := cumulative ((sort_items (it.take n)).map item_t.weight) }

/-- The loop `take[items[i].index] = buf[i]` (lines 245-247), for `i` running over `is`. -/
def write_back (items : List item_t) (buf : List Bool) (is : List Nat) (take : List Bool) :
    List Bool :=
  is.foldl (fun t i => t.set (item_at items i).index (buf.getD i false)) take

/-- The state `State best;` before the search: its content is never read. -/
def State.blank : State :=
  { context_ := default, considered_ := 0, value_ := 0, weight_ := 0,
    heuristic_value_ := 0, taken_ := ∅ }

/-- Function `solve_bnb(n, k, it, take)`: the returned `int` and the array `take` after the
call.  The local arrays hold `max_n` elements: a larger `n` writes past their end. -/
def solve_bnb (fuel : Nat) (n : Nat) (k : Int) (it : List item_t) (take : List Bool) :
    Run (Int × List Bool) :=
  if max_n < n then Run.undefined
  else
    match State.new (make_context n k it) with
    | none => Run.abort
    | some initial =>
      match bnb_optimize fuel initial State.blank with
      | Run.ret r =>
        if !r.ret then Run.abort
        else Run.ret (to_int r.best.value,
          write_back (make_context n k it).items r.best.to_boolean_array (List.range n) take)
      | Run.abort => Run.abort
      | Run.undefined => Run.undefined
      | Run.timeout => Run.timeout

/-- Reading `row[c]` in a row of the table for a column `c` given as a `long long`: `none`
outside the row. -/
def row_at (row : List Int) (c : Int) : Option Int :=
  if 0 ≤ c ∧ c < row.length then some (ll_at row c.toNat) else none

/-- One cell of the table: the body of the inner loop of `solve_dp` (lines 181-185), from the
previous row; `none` when `table[i - 1][j - item.weight]` is outside the row. -/
def dp_cell (prev : List Int) (item : item_t) (j : Nat) : Option Int :=
  if item.weight ≤ (j : Int) then
    match row_at prev (to_ll ((j : Int) - item.weight)) with
    | none => none
    | some t => some (max (ll_at prev j) (to_ll (t + item.value)))
  else some (ll_at prev j)

/-- The cells of a row once all of them are computed; `none` when one of them is not. -/
def all_cells : List (Option Int) → Option (List Int)
  | [] => some []
  | none :: _ => none
  | some a :: l =>
    match all_cells l with
    | none => none
    | some r => some (a :: r)

/-- Row `i` of the table from row `i - 1`: column `0` keeps the `0` of `resize`, the columns
`1 .. k` are filled by the inner loop. -/
def dp_row (prev : List Int) (item : item_t) (k : Int) : Option (List Int) :=
  all_cells ((List.range (k + 1).toNat).map
    (fun j => if j = 0 then some 0 else dp_cell prev item j))

/-- Row `i` of the table after the loops of lines 173-187: row `0` is the zero row left by
`resize`, row `i + 1` is filled from row `i` with item `items[i]`. -/
def table_row (k : Int) (items : List item_t) : Nat → Option (List Int)
  | 0 => some (List.replicate (k + 1).toNat 0)
  | i + 1 =>
    match table_row k items i with
    | none => none
    | some prev => dp_row prev (item_at items i) k

/-- Expression `table[i][j]` after the table is filled, for an `int` column `j`; `none` when
`j` is outside the row. -/
def table_at (k : Int) (items : List item_t) (i : Nat) (j : Int) : Option Int :=
  match table_row k items i with
  | none => none
  | some row => row_at row j

/-- The backtrace loop (lines 189-196) from row `i` and the `int` column `j`: the array `take`
at the end; `none` when the table is read outside a row. -/
def backtrace (k : Int) (items : List item_t) : Nat → Int → List Bool → Option (List Bool)
  | 0, _, take => some take
  | i + 1, j, take =>
    match table_at k items (i + 1) j, table_at k items i j with
    | some a, some b =>
      if a = b then backtrace k items i j (take.set i false)
      else backtrace k items i (to_int (to_ll (j - (item_at items i).weight)))
        (take.set i true)
    | _, _ => none

/-- Function `solve_dp(n, k, items, take)`: the returned `int` and the array `take` after the
call.  There is no result when `k` is negative (`resize(k + 1)` and the reads of column `k`),
when the `int` counter `j` of the inner loop has to pass `INT_MAX` to leave the loop
(`n >= 1` and `k >= INT_MAX`), or when a read falls outside a row of the table. -/
def solve_dp (n : Nat) (k : Int) (items : List item_t) (take : List Bool) :
    Run (Int × List Bool) :=
  if k < 0 then Run.undefined
  else if 0 < n ∧ INT_MAX ≤ k then Run.undefined
  else
    match table_at k items n k, backtrace k items n (to_int k) take with
    | some v, some t => Run.ret (to_int v, t)
    | _, _ => Run.undefined

/-! ## Notions used to state the properties -/

/-- Total weight of a selection of items. -/
def total_weight (sel : List item_t) : Int := (sel.map item_t.weight).sum

/-- Total value of a selection of items. -/
def total_value (sel : List item_t) : Int := (sel.map item_t.value).sum

/-- Value density `value / weight` of an item, as an exact rational. -/
def density (x : item_t) : ℚ := (x.value : ℚ) / (x.weight : ℚ)

/-- The invariant of a state: the taken positions are among the considered ones and the two
accumulators are the sums over the taken positions. -/
def State.Inv (s : State) : Prop :=
  (∀ i ∈ s.taken_, i < s.considered_) ∧
  s.weight_ = s.taken_.sum (fun i => (item_at s.context_.items i).weight) ∧
  s.value_ = s.taken_.sum (fun i => (item_at s.context_.items i).value)

/-- The states obtained from `State(context)` by calls of `left()` and `right()` that return. -/
inductive Reachable (c : context_t) : State → Prop
  | init {s : State} : State.new c = some s → Reachable c s
  | left {s t : State} : Reachable c s → s.left = some t → Reachable c t
  | right {s t : State} : Reachable c s → s.right = some t → Reachable c t

/-- A problem context as `solve_bnb` builds it: `n` items of positive weight and non-negative
value, sorted by descending density, with their prefix sums. -/
structure WellFormed (c : context_t) : Prop where
  length_eq : c.items.length = c.n
  weight_pos : ∀ x ∈ c.items, 0 < x.weight
  value_nonneg : ∀ x ∈ c.items, 0 ≤ x.value
  sorted : c.items.Pairwise (fun a b => density b ≤ density a)
  cv_eq : c.cumulative_value = cumulative (c.items.map item_t.value)
  cw_eq : c.cumulative_weight = cumulative (c.items.map item_t.weight)

/-- The value `v` is the maximum of the total value over the selections of items of `items`
(sublists: every item is used at most once) whose total weight is at most `k`. -/
def IsMaxValue (items : List item_t) (k : Int) (v : Int) : Prop :=
  (∃ sel, sel.Sublist items ∧ total_weight sel ≤ k ∧ total_value sel = v) ∧
  ∀ sel, sel.Sublist items → total_weight sel ≤ k → total_value sel ≤ v

/-- The items of `items` marked in the array `take`. -/
def marked (items : List item_t) (take : List Bool) : List item_t :=
  ((items.zip take).filter (fun p => p.2)).map (fun p => p.1)

/-- The sums of the context fit in a `long long`: over every set of positions, the total
weight and the total value of the items lie in `[-2 ^ 63, 2 ^ 63)`. -/
def SumsFit (c : context_t) : Prop :=
  ∀ T : Finset Nat,
    (-2 ^ 63 ≤ T.sum (fun i => (item_at c.items i).weight) ∧
      T.sum (fun i => (item_at c.items i).weight) < 2 ^ 63) ∧
    (-2 ^ 63 ≤ T.sum (fun i => (item_at c.items i).value) ∧
      T.sum (fun i => (item_at c.items i).value) < 2 ^ 63)

/-- The three items of the worked example of the specification, in input order. -/
def example_items : List item_t := [⟨0, 10, 60⟩, ⟨1, 20, 100⟩, ⟨2, 30, 120⟩]

/-- The context that `solve_bnb` builds for the worked example (capacity 50). -/
def example_context : context_t := make_context 3 50 example_items

/-- One item whose value does not fit in an `int`. -/
def big_value_items : List item_t := [⟨0, 1, 2 ^ 31⟩]

/-- Two items, the denser one so heavy that the prefix sums leave the range of `int`. -/
def heavy_items : List item_t := [⟨0, 2 ^ 31, 2 ^ 32⟩, ⟨1, 1, 1⟩]

/-- Two light items with the largest capacity an `int` can hold: the instance
`2 2147483647 / 2 1 / 1 1` on the standard input, for which `main` selects `solve_bnb`. -/
def wide_items : List item_t := [⟨0, 1, 2⟩, ⟨1, 1, 1⟩]

/-- The initial state of the worked example. -/
def example_initial : State :=
  { context_ := example_context, considered_ := 0, value_ := 0, weight_ := 0,
    heuristic_value_ := 240, taken_ := ∅ }

/-- The state of the worked example after `right()` on the initial state: the densest item,
`(value 60, weight 10)`, is taken. -/
def example_right : State :=
  { context_ := example_context, considered_ := 1, value_ := 60, weight_ := 10,
    heuristic_value_ := 240, taken_ := {0} }

/-- The initial state for `heavy_items` and capacity 1. -/
def heavy_initial : State :=
  { context_ := make_context 2 1 heavy_items, considered_ := 0, value_ := 0, weight_ := 0,
    heuristic_value_ := 2, taken_ := ∅ }

/-- The initial state for `wide_items` and capacity `INT_MAX`. -/
def wide_initial : State :=
  { context_ := make_context 2 INT_MAX wide_items, considered_ := 0, value_ := 0,
    weight_ := 0, heuristic_value_ := 3, taken_ := ∅ }

/-- A state over capacity: weight 3 with capacity 2. -/
def overweight_state : State :=
  { context_ := make_context 1 2 [⟨0, 3, 7⟩], considered_ := 1, value_ := 7, weight_ := 3,
    heuristic_value_ := 7, taken_ := {0} }

/-- One item of weight 1 and value 1. -/
def unit_items : List item_t := [⟨0, 1, 1⟩]

/-- The context of `unit_items` with the capacity `2 ^ 31`, one more than `INT_MAX`. -/
def unit_context : context_t := make_context 1 (2 ^ 31) unit_items

/-- The context of `wide_items` with the capacity `2 ^ 32`. -/
def wrapped_context : context_t := make_context 2 (2 ^ 32) wide_items

/-- The leaf of the worked example that takes the last two sorted items. -/
def example_leaf : State :=
  { context_ := example_context, considered_ := 3, value_ := 220, weight_ := 50,
    heuristic_value_ := 220, taken_ := {1, 2} }

/-- The state of the worked example after `left()` twice: the two densest items are
skipped. -/
def example_skip : State :=
  { context_ := example_context, considered_ := 2, value_ := 0, weight_ := 0,
    heuristic_value_ := 120, taken_ := ∅ }

/-- Two items of value `2 ^ 62`: their total value, `2 ^ 63`, is beyond the largest
`long long`.  With the capacity `10 ^ 8` this is the instance
`2 100000000 / 4611686018427387904 100000000 / 4611686018427387904 200000000` on the standard
input, for which `main` selects `solve_bnb`. -/
def huge_value_items : List item_t := [⟨0, 10 ^ 8, 2 ^ 62⟩, ⟨1, 2 * 10 ^ 8, 2 ^ 62⟩]

/-- The context that `solve_bnb` builds for `huge_value_items` and the capacity `10 ^ 8`. -/
def huge_value_context : context_t := make_context 2 (10 ^ 8) huge_value_items

/-- The initial state for `huge_value_items` and the capacity `10 ^ 8`. -/
def huge_value_initial : State :=
  { context_ := huge_value_context, considered_ := 0, value_ := 0, weight_ := 0,
    heuristic_value_ := 2 ^ 62, taken_ := ∅ }

/-- The state after `right()` on `huge_value_initial`: the first item is taken and fills the
capacity. -/
def huge_value_first : State :=
  { context_ := huge_value_context, considered_ := 1, value_ := 2 ^ 62, weight_ := 10 ^ 8,
    heuristic_value_ := 2 ^ 62, taken_ := {0} }

/-- The state that `right()` returns on `huge_value_first`: both items are taken and `value_`
has wrapped (the state is over capacity, and `bnb_optimize` drops it after the call). -/
def huge_value_both : State :=
  { context_ := huge_value_context, considered_ := 2, value_ := -2 ^ 63,
    weight_ := 3 * 10 ^ 8, heuristic_value_ := -2 ^ 63, taken_ := insert 1 {0} }

/-- Two items whose values need 54 binary digits, in input order; the second one alone is the
best selection for the capacity 2. -/
def precise_items : List item_t := [⟨0, 1, 2 ^ 53⟩, ⟨1, 2, 2 ^ 53 + 1⟩]

/-- The items of `precise_items` with their weights multiplied by `10 ^ 8`: with the capacity
`2 * 10 ^ 8` this is the instance
`2 200000000 / 9007199254740992 100000000 / 9007199254740993 200000000` on the standard
input, for which `main` selects `solve_bnb`. -/
def precise_wide_items : List item_t := [⟨0, 10 ^ 8, 2 ^ 53⟩, ⟨1, 2 * 10 ^ 8, 2 ^ 53 + 1⟩]

/-- One item whose value, `2 ^ 53 + 1`, is not a `double`.  With the capacity `10 ^ 9` this is
the instance `1 1000000000 / 9007199254740993 1` on the standard input, for which `main`
selects `solve_bnb`. -/
def odd_value_items : List item_t := [⟨0, 1, 2 ^ 53 + 1⟩]

/-- The context that `solve_bnb` builds for `odd_value_items` and the capacity `10 ^ 9`. -/
def odd_value_context : context_t := make_context 1 (10 ^ 9) odd_value_items

/-- The initial state for `odd_value_items` and the capacity `10 ^ 9`. -/
def odd_value_initial : State :=
  { context_ := odd_value_context, considered_ := 0, value_ := 0, weight_ := 0,
    heuristic_value_ := 2 ^ 53, taken_ := ∅ }

/-- The leaf reached by `right()` from `odd_value_initial`: the item is taken. -/
def odd_value_leaf : State :=
  { context_ := odd_value_context, considered_ := 1, value_ := 2 ^ 53 + 1, weight_ := 1,
    heuristic_value_ := 2 ^ 53, taken_ := {0} }

/-- Two items of nearly equal density, with all sums below `2 ^ 31`: the instance
`2 217229011 / 465262988 217229011 / 849828880 396780943` on the standard input, for which
`main` selects `solve_bnb`. -/
def close_items : List item_t := [⟨0, 217229011, 465262988⟩, ⟨1, 396780943, 849828880⟩]

/-- The context that `solve_bnb` builds for `close_items` and the capacity 217229011. -/
def close_context : context_t := make_context 2 217229011 close_items

/-- The initial state for `close_items`: the first item fills the capacity. -/
def close_initial : State :=
  { context_ := close_context, considered_ := 0, value_ := 0, weight_ := 0,
    heuristic_value_ := 465262988, taken_ := ∅ }

/-- The state after `left()` on `close_initial`: the first item is skipped. -/
def close_left : State :=
  { context_ := close_context, considered_ := 1, value_ := 0, weight_ := 0,
    heuristic_value_ := 465262989, taken_ := ∅ }

/-- The context that `solve_bnb` builds for a single item `x` and the capacity `k`. -/
def single_context (k : Int) (x : item_t) : context_t :=
  { n := 1, k := k, items := [x], cumulative_value := [x.value], cumulative_weight := [x.weight] }

set_option maxRecDepth 100000

/-! ## Machine numbers: the wraps -/

theorem to_int_eq_self {x : Int} (h₁ : -2 ^ 31 ≤ x) (h₂ : x < 2 ^ 31) : to_int x = x := by
  unfold to_int
  norm_num at h₁ h₂ ⊢
  omega

theorem to_int_le {x : Int} (h : 0 ≤ x) : to_int x ≤ x := by
  unfold to_int
  norm_num
  omega

theorem to_ll_eq_self {x : Int} (h₁ : -2 ^ 63 ≤ x) (h₂ : x < 2 ^ 63) : to_ll x = x := by
  unfold to_ll
  norm_num at h₁ h₂ ⊢
  omega

/-! ## Machine numbers: the rounding of `double` -/

theorem bit_length_aux_zero (fuel : Nat) : bit_length_aux fuel 0 = 0 := by
  cases fuel <;> simp [bit_length_aux]

theorem bit_length_aux_spec : ∀ (fuel n : Nat), n < 2 ^ fuel → 0 < n →
    0 < bit_length_aux fuel n ∧ 2 ^ (bit_length_aux fuel n - 1) ≤ n ∧
      n < 2 ^ bit_length_aux fuel n := by
  intro fuel
  induction fuel with
  | zero => intro n h1 h2; simp at h1; omega
  | succ fuel ih =>
    intro n h1 h2
    have hn : n ≠ 0 := by omega
    simp only [bit_length_aux, if_neg hn]
    by_cases h0 : n / 2 = 0
    · rw [h0, bit_length_aux_zero]
      have : n = 1 := by omega
      subst this
      simp
    · have hlt : n / 2 < 2 ^ fuel := by
        rw [pow_succ] at h1
        omega
      obtain ⟨b0, b1, b2⟩ := ih (n / 2) hlt (by omega)
      refine ⟨by omega, ?_, ?_⟩
      · have e : bit_length_aux fuel (n / 2) + 1 - 1 = (bit_length_aux fuel (n / 2) - 1) + 1 := by
          omega
        rw [e, pow_succ]
        omega
      · rw [pow_succ]
        omega

/-- The number of binary digits: `2 ^ (bit_length n - 1) ≤ n < 2 ^ bit_length n`. -/
theorem bit_length_spec (n : Nat) (h : 0 < n) :
    0 < bit_length n ∧ 2 ^ (bit_length n - 1) ≤ n ∧ n < 2 ^ bit_length n :=
  bit_length_aux_spec n n (Nat.lt_two_pow n) h

/-- The exponent found by `floor_log2`: `q * 2 ^ L ≤ a < q * 2 ^ (L + 1)`. -/
theorem floor_log2_spec (a q : Nat) (ha : 0 < a) (hq : 0 < q) :
    (q : ℚ) * (2 : ℚ) ^ (floor_log2 a q) ≤ a ∧
      (a : ℚ) < q * (2 : ℚ) ^ (floor_log2 a q + 1) := by
  obtain ⟨a0, a1, a2⟩ := bit_length_spec a ha
  obtain ⟨q0, q1, q2⟩ := bit_length_spec q hq
  have hqpos : (0 : ℚ) < q := by exact_mod_cast hq
  have hA1 : (2 : ℚ) ^ ((bit_length a : ℤ) - 1) ≤ a := by
    have e : ((bit_length a - 1 : ℕ) : ℤ) = (bit_length a : ℤ) - 1 := by omega
    rw [← e, zpow_natCast]
    exact_mod_cast a1
  have hA2 : (a : ℚ) < (2 : ℚ) ^ (bit_length a : ℤ) := by
    rw [zpow_natCast]
    exact_mod_cast a2
  have hQ1 : (2 : ℚ) ^ ((bit_length q : ℤ) - 1) ≤ q := by
    have e : ((bit_length q - 1 : ℕ) : ℤ) = (bit_length q : ℤ) - 1 := by omega
    rw [← e, zpow_natCast]
    exact_mod_cast q1
  have hQ2 : (q : ℚ) < (2 : ℚ) ^ (bit_length q : ℤ) := by
    rw [zpow_natCast]
    exact_mod_cast q2
  have key1 : (q : ℚ) * 2 ^ ((bit_length a : ℤ) - bit_length q - 1) ≤ a := by
    have e : (2 : ℚ) ^ ((bit_length a : ℤ) - 1) =
        2 ^ (bit_length q : ℤ) * 2 ^ ((bit_length a : ℤ) - bit_length q - 1) := by
      rw [← zpow_add₀ (two_ne_zero)]
      congr 1
      ring
    have hp : (0 : ℚ) < 2 ^ ((bit_length a : ℤ) - bit_length q - 1) := by positivity
    calc (q : ℚ) * 2 ^ ((bit_length a : ℤ) - bit_length q - 1)
        ≤ 2 ^ (bit_length q : ℤ) * 2 ^ ((bit_length a : ℤ) - bit_length q - 1) :=
          mul_le_mul_of_nonneg_right (le_of_lt hQ2) (le_of_lt hp)
      _ = 2 ^ ((bit_length a : ℤ) - 1) := e.symm
      _ ≤ a := hA1
  have key2 : (a : ℚ) < q * 2 ^ ((bit_length a : ℤ) - bit_length q + 1) := by
    have e : (2 : ℚ) ^ (bit_length a : ℤ) =
        2 ^ ((bit_length q : ℤ) - 1) * 2 ^ ((bit_length a : ℤ) - bit_length q + 1) := by
      rw [← zpow_add₀ (two_ne_zero)]
      congr 1
      ring
    have hp : (0 : ℚ) < 2 ^ ((bit_length a : ℤ) - bit_length q + 1) := by positivity
    calc (a : ℚ) < 2 ^ (bit_length a : ℤ) := hA2
      _ = 2 ^ ((bit_length q : ℤ) - 1) * 2 ^ ((bit_length a : ℤ) - bit_length q + 1) := e
      _ ≤ q * 2 ^ ((bit_length a : ℤ) - bit_length q + 1) :=
          mul_le_mul_of_nonneg_right hQ1 (le_of_lt hp)
  unfold floor_log2
  by_cases hle : (bit_length q : ℤ) ≤ bit_length a
  · have hle' : bit_length q ≤ bit_length a := by exact_mod_cast hle
    have e : (2 : ℚ) ^ ((bit_length a : ℤ) - bit_length q) =
        ((2 ^ (bit_length a - bit_length q) : ℕ) : ℚ) := by
      have e' : ((bit_length a - bit_length q : ℕ) : ℤ) = (bit_length a : ℤ) - bit_length q := by
        omega
      rw [← e', zpow_natCast]
      push_cast
      rfl
    rw [if_pos hle]
    by_cases hc : q * 2 ^ (bit_length a - bit_length q) ≤ a
    · rw [if_pos hc]
      refine ⟨?_, key2⟩
      rw [e]
      exact_mod_cast hc
    · rw [if_neg hc]
      refine ⟨key1, ?_⟩
      have : (bit_length a : ℤ) - bit_length q - 1 + 1 = (bit_length a : ℤ) - bit_length q := by
        ring
      rw [this, e]
      exact_mod_cast Nat.lt_of_not_le hc
  · have hlt : bit_length a < bit_length q := by
      have := lt_of_not_le hle
      exact_mod_cast this
    have hp : (0 : ℚ) < ((2 ^ (bit_length q - bit_length a) : ℕ) : ℚ) := by positivity
    have e : (2 : ℚ) ^ ((bit_length a : ℤ) - bit_length q) =
        1 / ((2 ^ (bit_length q - bit_length a) : ℕ) : ℚ) := by
      have e' : (bit_length a : ℤ) - bit_length q = -((bit_length q - bit_length a : ℕ) : ℤ) := by
        omega
      rw [e', zpow_neg, zpow_natCast]
      push_cast
      rw [one_div]
    rw [if_neg hle]
    by_cases hc : q ≤ a * 2 ^ (bit_length q - bit_length a)
    · rw [if_pos hc]
      refine ⟨?_, key2⟩
      rw [e, mul_one_div, div_le_iff₀ hp]
      exact_mod_cast hc
    · rw [if_neg hc]
      refine ⟨key1, ?_⟩
      have : (bit_length a : ℤ) - bit_length q - 1 + 1 = (bit_length a : ℤ) - bit_length q := by
        ring
      rw [this, e, mul_one_div, lt_div_iff₀ hp]
      exact_mod_cast Nat.lt_of_not_le hc

theorem scale_den_pos (q : Nat) (e : Int) (hq : 0 < q) : 0 < scale_den q e := by
  unfold scale_den
  split_ifs <;> positivity

/-- Rounding to the nearest integer with ties to even: the result is within one half of
`num / den`, and it is even when `num / den` is half way. -/
theorem round_half_even_near (num den : Nat) (hd : 0 < den) :
    2 * ((num : Int) - round_half_even num den * den).natAbs ≤ den ∧
      (2 * ((num : Int) - round_half_even num den * den).natAbs = den →
        round_half_even num den % 2 = 0) := by
  have h2 := Nat.mod_lt num hd
  have hm : num / den * den + num % den = num := by
    rw [Nat.mul_comm]
    exact Nat.div_add_mod num den
  unfold round_half_even
  generalize num / den = d at hm ⊢
  generalize num % den = m at hm h2 ⊢
  have hI : (num : Int) = (d : Int) * den + m := by exact_mod_cast hm.symm
  split_ifs with hc
  · have e : (num : Int) - ((d + 1 : ℕ) : Int) * den = -((den - m : ℕ) : Int) := by
      rw [hI]
      push_cast [Nat.cast_sub (le_of_lt h2)]
      ring
    rw [e, Int.natAbs_neg, Int.natAbs_ofNat]
    rcases hc with hc | ⟨hc1, hc2⟩
    · constructor
      · omega
      · intro h; omega
    · constructor
      · omega
      · intro _; omega
  · have e : (num : Int) - ((d : ℕ) : Int) * den = ((m : ℕ) : Int) := by
      rw [hI]
      ring
    rw [e, Int.natAbs_ofNat]
    push_neg at hc
    constructor
    · omega
    · intro h
      have := hc.2 h
      omega

theorem round_significand_near (a q : Nat) (hq : 0 < q) :
    2 * ((scale_num a (round_significand a q).2 : Int) -
        (round_significand a q).1 * scale_den q (round_significand a q).2).natAbs ≤
      scale_den q (round_significand a q).2 :=
  (round_half_even_near _ _ (scale_den_pos q _ hq)).1

/-- Integers of at most 53 binary digits are converted to `double` without loss. -/
theorem double_of_ll_exact (x : Int) (h : x.natAbs < 2 ^ 53) :
    (double.of_ll x).num = x * (double.of_ll x).den := by
  unfold double.of_ll double.round
  by_cases hx : x = 0
  · rw [if_pos hx, hx]
    rfl
  · rw [if_neg hx]
    have ha : 0 < x.natAbs := Int.natAbs_pos.mpr hx
    obtain ⟨h1, -⟩ := floor_log2_spec x.natAbs 1 ha (by decide)
    have hL : floor_log2 x.natAbs 1 < 53 := by
      have h2 : (2 : ℚ) ^ (floor_log2 x.natAbs 1) < 2 ^ (53 : ℤ) := by
        have h3 : ((x.natAbs : ℕ) : ℚ) < 2 ^ (53 : ℤ) := by
          rw [zpow_ofNat]
          exact_mod_cast h
        simp only [Nat.cast_one, one_mul] at h1
        exact lt_of_le_of_lt h1 h3
      exact (zpow_lt_zpow_iff_right₀ (by norm_num : (1 : ℚ) < 2)).mp h2
    have hmod : ∀ n : Nat, round_half_even n 1 = n := by
      intro n
      simp [round_half_even, Nat.mod_one]
    have hsx : x.sign * (x.natAbs : Int) = x := Int.sign_mul_natAbs x
    simp only [round_significand]
    by_cases he : 0 ≤ floor_log2 x.natAbs 1 - 52
    · have he0 : floor_log2 x.natAbs 1 - 52 = 0 := by omega
      rw [if_pos he]
      simp only [he0, scale_num, scale_den, le_refl, if_true, Int.toNat_zero, pow_zero,
        mul_one, hmod, Nat.cast_one]
      exact hsx
    · rw [if_neg he]
      simp only [scale_num, scale_den, if_neg he, hmod]
      push_cast
      rw [← mul_assoc, Int.sign_mul_abs]

/-! ## The state: fields kept by `compute_heuristic_value`, invariant -/

theorem compute_fields {s t : State} (h : s.compute_heuristic_value = some t) :
    t = { s with heuristic_value_ := t.heuristic_value_ } := by
  unfold State.compute_heuristic_value at h
  split_ifs at h
  cases h
  rfl

theorem upper_bound_self (a : List Int) (n : Nat) (v : Int) : upper_bound a n n v = n := by
  simp [upper_bound, upper_bound_from]

theorem inv_of_compute {s t : State} (h : s.compute_heuristic_value = some t) (hs : s.Inv) :
    t.Inv := by
  rw [compute_fields h]
  exact hs

theorem inv_new (c : context_t) (s : State) (h : State.new c = some s) : s.Inv := by
  refine inv_of_compute h ?_
  simp [State.Inv]

theorem left_eq {s t : State} (h : s.left = some t) :
    s.leaf = false ∧ s.feasible = true ∧
    State.compute_heuristic_value { s with considered_ := s.considered_ + 1 } = some t := by
  unfold State.left at h
  split_ifs at h with h1 h2
  exact ⟨by simpa using h1, by simpa using h2, h⟩

theorem right_eq {s t : State} (h : s.right = some t) :
    s.leaf = false ∧ s.feasible = true ∧
    State.compute_heuristic_value
      { s with
        considered_ := s.considered_ + 1
        value_ := to_ll (s.value_ + (item_at s.context_.items s.considered_).value)
        weight_ := to_ll (s.weight_ + (item_at s.context_.items s.considered_).weight)
        taken_ := insert s.considered_ s.taken_ } = some t := by
  unfold State.right at h
  split_ifs at h with h1 h2
  exact ⟨by simpa using h1, by simpa using h2, h⟩

theorem left_fields {s t : State} (h : s.left = some t) :
    t.context_ = s.context_ ∧ t.considered_ = s.considered_ + 1 ∧ t.value_ = s.value_ ∧
    t.weight_ = s.weight_ ∧ t.taken_ = s.taken_ := by
  have e := compute_fields (left_eq h).2.2
  rw [e]
  exact ⟨rfl, rfl, rfl, rfl, rfl⟩

theorem right_fields {s t : State} (h : s.right = some t) :
    t.context_ = s.context_ ∧ t.considered_ = s.considered_ + 1 ∧
    t.value_ = to_ll (s.value_ + (item_at s.context_.items s.considered_).value) ∧
    t.weight_ = to_ll (s.weight_ + (item_at s.context_.items s.considered_).weight) ∧
    t.taken_ = insert s.considered_ s.taken_ := by
  have e := compute_fields (right_eq h).2.2
  rw [e]
  exact ⟨rfl, rfl, rfl, rfl, rfl⟩

theorem new_fields {c : context_t} {s : State} (h : State.new c = some s) :
    s.context_ = c ∧ s.considered_ = 0 ∧ s.value_ = 0 ∧ s.weight_ = 0 ∧ s.taken_ = ∅ := by
  have e := compute_fields h
  rw [e]
  exact ⟨rfl, rfl, rfl, rfl, rfl⟩

theorem reachable_context {c : context_t} {s : State} (hs : Reachable c s) :
    s.context_ = c := by
  induction hs with
  | init h => exact (new_fields h).1
  | left _ h ih => rw [(left_fields h).1, ih]
  | right _ h ih => rw [(right_fields h).1, ih]

theorem inv_left {s t : State} (hs : s.Inv) (h : s.left = some t) : t.Inv := by
  refine inv_of_compute (left_eq h).2.2 ?_
  obtain ⟨h1, h2, h3⟩ := hs
  exact ⟨fun i hi => Nat.lt_succ_of_lt (h1 i hi), h2, h3⟩

theorem inv_right {s t : State} (hfit : SumsFit s.context_) (hs : s.Inv)
    (h : s.right = some t) : t.Inv := by
  refine inv_of_compute (right_eq h).2.2 ?_
  obtain ⟨h1, h2, h3⟩ := hs
  have hnot : s.considered_ ∉ s.taken_ := fun hc => lt_irrefl _ (h1 _ hc)
  obtain ⟨⟨w1, w2⟩, ⟨v1, v2⟩⟩ := hfit (insert s.considered_ s.taken_)
  rw [Finset.sum_insert hnot] at w1 w2 v1 v2
  refine ⟨?_, ?_, ?_⟩
  · intro i hi
    simp only [Finset.mem_insert] at hi
    rcases hi with rfl | hi
    · exact Nat.lt_succ_self _
    · exact Nat.lt_succ_of_lt (h1 i hi)
  · simp only [Finset.sum_insert hnot]
    rw [h2, add_comm]
    exact to_ll_eq_self w1 w2
  · simp only [Finset.sum_insert hnot]
    rw [h3, add_comm]
    exact to_ll_eq_self v1 v2

theorem reachable_inv {c : context_t} (hfit : SumsFit c) {s : State} (hs : Reachable c s) :
    s.Inv := by
  induction hs with
  | init h => exact inv_new c _ h
  | left _ h ih => exact inv_left ih h
  | right hr h ih => exact inv_right (by rw [reachable_context hr]; exact hfit) ih h

/-- Sums over sets of positions, for a function that is non-negative and vanishes from `n`
on: they lie between 0 and the sum over the first `n` positions. -/
theorem sum_positions_bound (g : Nat → Int) (n : Nat) (h0 : ∀ i, 0 ≤ g i)
    (hz : ∀ i, n ≤ i → g i = 0) (T : Finset Nat) :
    0 ≤ T.sum g ∧ T.sum g ≤ (Finset.range n).sum g := by
  constructor
  · exact Finset.sum_nonneg (fun i _ => h0 i)
  · have h1 : T.sum g ≤ (T ∪ Finset.range n).sum g :=
      Finset.sum_le_sum_of_subset_of_nonneg Finset.subset_union_left (fun i _ _ => h0 i)
    have h2 : (Finset.range n).sum g = (T ∪ Finset.range n).sum g := by
      apply Finset.sum_subset Finset.subset_union_right
      intro x _ hx
      apply hz
      simpa using hx
    rw [h2]
    exact h1

/-- A sufficient condition for `SumsFit`: `n` items of non-negative weight and value whose
total weight and total value (sums over the first `n` positions) are below `2 ^ 63`. -/
theorem sums_fit_of_nonneg (c : context_t) (n : Nat) (hlen : c.items.length = n)
    (hw : ∀ x ∈ c.items, 0 ≤ x.weight) (hv : ∀ x ∈ c.items, 0 ≤ x.value)
    (htw : (Finset.range n).sum (fun i => (item_at c.items i).weight) < 2 ^ 63)
    (htv : (Finset.range n).sum (fun i => (item_at c.items i).value) < 2 ^ 63) :
    SumsFit c := by
  have hdef : ∀ i, n ≤ i → item_at c.items i = default := by
    intro i hi
    unfold item_at
    rw [List.getD_eq_getElem?_getD, List.getElem?_eq_none (by omega)]
    rfl
  have hmem : ∀ i, i < n → item_at c.items i ∈ c.items := by
    intro i hi
    unfold item_at
    rw [List.getD_eq_getElem _ _ (by omega)]
    exact List.getElem_mem _
  have hw0 : ∀ i, 0 ≤ (item_at c.items i).weight := by
    intro i
    by_cases hi : i < n
    · exact hw _ (hmem i hi)
    · rw [hdef i (by omega)]
      decide
  have hv0 : ∀ i, 0 ≤ (item_at c.items i).value := by
    intro i
    by_cases hi : i < n
    · exact hv _ (hmem i hi)
    · rw [hdef i (by omega)]
      decide
  intro T
  obtain ⟨a1, a2⟩ := sum_positions_bound (fun i => (item_at c.items i).weight) n hw0
    (fun i hi => by show (item_at c.items i).weight = 0; rw [hdef i hi]; rfl) T
  obtain ⟨b1, b2⟩ := sum_positions_bound (fun i => (item_at c.items i).value) n hv0
    (fun i hi => by show (item_at c.items i).value = 0; rw [hdef i hi]; rfl) T
  refine ⟨⟨by linarith, by linarith⟩, ⟨by linarith, by linarith⟩⟩

/-- C10 (amended). State invariant: the initial state satisfies it and `left()` preserves it;
in a context where every sum of weights and every sum of values of items fits in a
`long long`, `right()` preserves it too, hence every state reachable from `State(context)`
has its taken positions below `considered_` and its `weight_` and `value_` equal to the sums
over the taken positions. -/
theorem state_invariant (c : context_t) :
    (∀ s, State.new c = some s → s.Inv) ∧
    (∀ s t : State, s.Inv → s.left = some t → t.Inv) ∧
    (∀ s t : State, SumsFit s.context_ → s.Inv → s.right = some t → t.Inv) ∧
    (SumsFit c → ∀ s, Reachable c s → s.Inv) := by
  exact ⟨inv_new c, fun s t => inv_left, fun s t => inv_right,
    fun hfit s => reachable_inv hfit⟩

/-- C10 on the worked example: the sums fit, and the state reached by `right()` from the
initial state satisfies the invariant. -/
theorem state_invariant_witness : SumsFit example_context ∧ example_right.Inv :=
  have hfit : SumsFit example_context :=
    sums_fit_of_nonneg example_context 3 rfl (by decide) (by decide) (by decide) (by decide)
  ⟨hfit, (state_invariant example_context).2.2.2 hfit example_right
    (Reachable.right
      (Reachable.init (show State.new example_context = some example_initial by decide))
      (show example_initial.right = some example_right by decide))⟩

/-- Two items of value `2 ^ 62`, of weight `10 ^ 8` and `2 * 10 ^ 8`, with `k = 10 ^ 8`: the
state that `right()` returns after `right()` holds `value_ = -2 ^ 63`, the wrapped sum, while
the values of the taken items add up to `2 ^ 63`: the invariant fails for a state reached by
calls of `right()`. -/
theorem state_invariant_counterexample :
    Reachable huge_value_context huge_value_both ∧
    huge_value_both.value_ = -2 ^ 63 ∧
    huge_value_both.taken_.sum (fun i => (item_at huge_value_both.context_.items i).value) =
      2 ^ 63 ∧
    ¬ huge_value_both.Inv := by
  have h0 : State.new huge_value_context = some huge_value_initial := by decide
  have h1 : huge_value_initial.right = some huge_value_first := by decide
  have h2 : huge_value_first.right = some huge_value_both := by decide
  have hsum : huge_value_both.taken_.sum
      (fun i => (item_at huge_value_both.context_.items i).value) = 2 ^ 63 := by decide
  refine ⟨Reachable.right (Reachable.right (Reachable.init h0) h1) h2, rfl, hsum, ?_⟩
  intro h
  have h3 := h.2.2
  rw [hsum] at h3
  exact absurd h3 (by decide)

/-! ## The frontier -/

theorem pq_pop_none {pq : List State} (h : pq_pop pq = none) : pq = [] := by
  cases pq with
  | nil => rfl
  | cons x xs =>
    unfold pq_pop at h
    split at h
    · simp at h
    · split_ifs at h

theorem pq_pop_perm {pq rest : List State} {st : State} (h : pq_pop pq = some (st, rest)) :
    List.Perm pq (st :: rest) := by
  induction pq generalizing st rest with
  | nil => simp [pq_pop] at h
  | cons x xs ih =>
    unfold pq_pop at h
    split at h
    · next hn =>
      have := pq_pop_none hn
      subst this
      simp only [Option.some.injEq, Prod.mk.injEq] at h
      obtain ⟨rfl, rfl⟩ := h
      exact List.Perm.refl _
    · next m r hm =>
      have hp := ih hm
      split_ifs at h
      · simp only [Option.some.injEq, Prod.mk.injEq] at h
        obtain ⟨rfl, rfl⟩ := h
        exact (List.Perm.cons x hp).trans (List.Perm.swap _ _ _)
      · simp only [Option.some.injEq, Prod.mk.injEq] at h
        obtain ⟨rfl, rfl⟩ := h
        exact List.Perm.cons x hp

theorem comparator_asymm {x y : State} (h : comparator x y = true) :
    comparator y x = false := by
  unfold comparator State.lt State.heuristicValue at *
  cases hx : x.leaf <;> cases hy : y.leaf <;> simp [hx, hy] at h ⊢
  all_goals omega

theorem comparator_neg_trans {x y z : State} (h₁ : comparator x y = false)
    (h₂ : comparator y z = false) : comparator x z = false := by
  unfold comparator State.lt State.heuristicValue at *
  cases hx : x.leaf <;> cases hy : y.leaf <;> cases hz : z.leaf <;>
    simp [hx, hy, hz] at h₁ h₂ ⊢
  all_goals omega

/-- The state popped is a maximum of the frontier: `comparator` puts it below no other one. -/
theorem pq_pop_max {pq rest : List State} {st : State} (h : pq_pop pq = some (st, rest)) :
    ∀ x ∈ rest, comparator st x = false := by
  induction pq generalizing st rest with
  | nil => simp [pq_pop] at h
  | cons a as ih =>
    unfold pq_pop at h
    split at h
    · simp only [Option.some.injEq, Prod.mk.injEq] at h
      obtain ⟨rfl, rfl⟩ := h
      intro x hx
      exact absurd hx (List.not_mem_nil _)
    · next m r hm =>
      have hmax := ih hm
      split_ifs at h with hc
      · simp only [Option.some.injEq, Prod.mk.injEq] at h
        obtain ⟨rfl, rfl⟩ := h
        intro x hx
        rcases List.mem_cons.mp hx with rfl | hx'
        · exact comparator_asymm hc
        · exact hmax x hx'
      · simp only [Option.some.injEq, Prod.mk.injEq] at h
        obtain ⟨rfl, rfl⟩ := h
        have hc' : comparator a m = false := by simpa using hc
        intro x hx
        rcases List.mem_cons.mp hx with rfl | hx'
        · exact hc'
        · exact comparator_neg_trans hc' (hmax x hx')

/-! ## The order of the frontier -/

theorem comparator_irrefl (x : State) : comparator x x = false := by
  unfold comparator State.lt State.heuristicValue
  cases hx : x.leaf <;> simp [hx]

theorem comparator_trans {x y z : State} (h₁ : comparator x y = true)
    (h₂ : comparator y z = true) : comparator x z = true := by
  unfold comparator State.lt State.heuristicValue at *
  cases hx : x.leaf <;> cases hy : y.leaf <;> cases hz : z.leaf <;>
    simp [hx, hy, hz] at h₁ h₂ ⊢
  all_goals omega

theorem comparator_incomparable_iff (x y : State) :
    (comparator x y = false ∧ comparator y x = false) ↔
      (x.leaf = y.leaf ∧ x.heuristicValue = y.heuristicValue ∧
        x.considered_ = y.considered_) := by
  unfold comparator State.lt State.heuristicValue
  cases hx : x.leaf <;> cases hy : y.leaf <;> simp [hx, hy]
  all_goals omega

/-- C20. The comparator of `bnb_optimize` is a strict weak ordering: it is irreflexive and
transitive, two states are incomparable exactly when they agree on `leaf()`,
`heuristicValue()` and `considered_`, and incomparability is transitive. -/
theorem comparator_strict_weak_order :
    (∀ x : State, comparator x x = false) ∧
    (∀ x y z : State, comparator x y = true → comparator y z = true →
      comparator x z = true) ∧
    (∀ x y : State, (comparator x y = false ∧ comparator y x = false) ↔
      (x.leaf = y.leaf ∧ x.heuristicValue = y.heuristicValue ∧
        x.considered_ = y.considered_)) ∧
    (∀ x y z : State, (comparator x y = false ∧ comparator y x = false) →
      (comparator y z = false ∧ comparator z y = false) →
      (comparator x z = false ∧ comparator z x = false)) := by
  refine ⟨comparator_irrefl, fun x y z => comparator_trans,
    comparator_incomparable_iff, ?_⟩
  intro x y z h1 h2
  exact ⟨comparator_neg_trans h1.1 h2.1, comparator_neg_trans h2.2 h1.2⟩

/-- C20 on the worked example: a state that skips two items is below the initial state, the
initial state is below a leaf, and the comparator puts the first one below the leaf. -/
theorem comparator_strict_weak_order_witness :
    comparator example_skip example_leaf = true :=
  comparator_strict_weak_order.2.1 example_skip example_initial example_leaf
    (by decide) (by decide)

/-- C16. Terminal states first: a terminal state is above every non-terminal state, whatever
their bounds, and between two states of the same terminality the one with the strictly larger
bound is above the other. -/
theorem terminal_first (t s a b : State) (ht : t.leaf = true) (hs : s.leaf = false)
    (hab : a.leaf = b.leaf) (hlt : a.heuristicValue < b.heuristicValue) :
    (comparator s t = true ∧ comparator t s = false) ∧
    (comparator a b = true ∧ comparator b a = false) := by
  unfold comparator State.lt State.heuristicValue at *
  refine ⟨by simp [ht, hs], ?_⟩
  cases ha : a.leaf <;> cases hb : b.leaf <;> simp [ha, hb] at hab ⊢
  all_goals omega

/-- C15 (amended). Depth tie-break of the frontier: between two non-terminal states of equal
bound, the comparator puts the shallower state `x` below the deeper state `y`, so that `y` is
popped before `x`, in whichever order they were pushed. -/
theorem deeper_first (x y : State) (hx : x.leaf = false) (hy : y.leaf = false)
    (hh : x.heuristicValue = y.heuristicValue) (hd : x.considered_ < y.considered_) :
    comparator x y = true ∧ comparator y x = false ∧
    pq_pop [x, y] = some (y, [x]) ∧ pq_pop [y, x] = some (y, [x]) := by
  have h1 : comparator x y = true := by
    unfold comparator State.lt
    simp [hx, hy, hh, hd]
  have h2 : comparator y x = false := comparator_asymm h1
  refine ⟨h1, h2, ?_, ?_⟩
  · simp [pq_pop, h1]
  · simp [pq_pop, h2]

/-- C15 on the worked example: the initial state and its right child are non-terminal with
the same bound 240; the child, one level deeper, is popped first. -/
theorem deeper_first_witness :
    comparator example_initial example_right = true ∧
    comparator example_right example_initial = false ∧
    pq_pop [example_initial, example_right] = some (example_right, [example_initial]) ∧
    pq_pop [example_right, example_initial] = some (example_right, [example_initial]) :=
  deeper_first example_initial example_right (by decide) (by decide) (by decide) (by decide)

/-- Two non-terminal states of the worked example with the same bound, the first shallower
than the second: the comparator does not put the deeper one below the shallower one. -/
theorem shallower_first_counterexample :
    example_initial.leaf = false ∧ example_right.leaf = false ∧
    example_initial.heuristicValue = example_right.heuristicValue ∧
    example_initial.considered_ < example_right.considered_ ∧
    ¬ (comparator example_right example_initial = true ∧
        comparator example_initial example_right = false) := by
  decide

/-- C16 on the worked example: the leaf that takes the last two sorted items is above the
initial state although its bound 220 is smaller than 240, and the initial state is above a
non-terminal state of bound 200. -/
theorem terminal_first_witness :
    (comparator example_initial example_leaf = true ∧
      comparator example_leaf example_initial = false) ∧
    (comparator example_skip example_initial = true ∧
      comparator example_initial example_skip = false) :=
  terminal_first example_leaf example_initial example_skip example_initial
    (by decide) (by decide) (by decide) (by decide)

/-! ## A larger step budget changes nothing -/

theorem bnb_loop_mono {f : Nat} {v e : loop_vars} (h : bnb_loop f v = Run.ret e) (d : Nat) :
    bnb_loop (f + d) v = Run.ret e := by
  induction f generalizing v with
  | zero => simp [bnb_loop] at h
  | succ f ih =>
    rw [show f + 1 + d = (f + d) + 1 by omega]
    unfold bnb_loop at h ⊢
    cases hpop : pq_pop v.pq with
    | none =>
      simp only [hpop] at h ⊢
      exact h
    | some p =>
      obtain ⟨st, rest⟩ := p
      simp only [hpop] at h ⊢
      cases hbody : bnb_body st rest v.solved v.best v.expanded with
      | none => simp [hbody] at h
      | some v' =>
        simp only [hbody] at h ⊢
        exact ih h

theorem bnb_optimize_mono {f : Nat} {initial best : State} {r : bnb_result}
    (h : bnb_optimize f initial best = Run.ret r) (d : Nat) :
    bnb_optimize (f + d) initial best = Run.ret r := by
  unfold bnb_optimize at h ⊢
  split_ifs at h ⊢ with hf
  · exact h
  · cases he : bnb_loop f
        { pq := pq_push initial [], solved := false, best := best, expanded := 0 } with
    | ret e =>
      simp only [he] at h
      simp only [bnb_loop_mono he d]
      exact h
    | abort => simp [he] at h
    | undefined => simp [he] at h
    | timeout => simp [he] at h

theorem solve_bnb_mono {f f' n : Nat} {k : Int} {it : List item_t} {take : List Bool}
    {r : Int × List Bool} (h : solve_bnb f n k it take = Run.ret r) (hf : f ≤ f') :
    solve_bnb f' n k it take = Run.ret r := by
  obtain ⟨d, rfl⟩ := Nat.exists_eq_add_of_le hf
  unfold solve_bnb at h ⊢
  split_ifs at h ⊢ with hn
  cases hinit : State.new (make_context n k it) with
  | none => simp [hinit] at h
  | some initial =>
    simp only [hinit] at h ⊢
    cases hres : bnb_optimize f initial State.blank with
    | ret res =>
      simp only [hres] at h
      simp only [bnb_optimize_mono hres d]
      exact h
    | abort => simp [hres] at h
    | undefined => simp [hres] at h
    | timeout => simp [hres] at h

/-- A selection of `items` is among `items.sublists`: the maximum can be checked on that
finite list. -/
theorem isMaxValue_of_sublists (items : List item_t) (k v : Int)
    (h1 : ∃ sel ∈ items.sublists, total_weight sel ≤ k ∧ total_value sel = v)
    (h2 : ∀ sel ∈ items.sublists, total_weight sel ≤ k → total_value sel ≤ v) :
    IsMaxValue items k v := by
  obtain ⟨sel, hs, hw, hv⟩ := h1
  exact ⟨⟨sel, List.mem_sublists.mp hs, hw, hv⟩,
    fun s hs hw => h2 s (List.mem_sublists.mpr hs) hw⟩

/-! ## The worked example and the early return -/

/-- C14. Worked example: on the items `(60, 10)`, `(100, 20)`, `(120, 30)` with `k = 50`,
whatever the array `take` holds before the call, `solve_dp` returns 220 with
`take = [false, true, true]`, and so does `solve_bnb` (16 passes of its loop are enough). -/
theorem worked_example (b₀ b₁ b₂ : Bool) (fuel : Nat) (hfuel : 16 ≤ fuel) :
    solve_dp 3 50 example_items [b₀, b₁, b₂] = Run.ret (220, [false, true, true]) ∧
    solve_bnb fuel 3 50 example_items [b₀, b₁, b₂] = Run.ret (220, [false, true, true]) := by
  have hdp : ∀ x y z : Bool,
      solve_dp 3 50 example_items [x, y, z] = Run.ret (220, [false, true, true]) := by decide
  have hbnb : ∀ x y z : Bool,
      solve_bnb 16 3 50 example_items [x, y, z] = Run.ret (220, [false, true, true]) := by
    decide
  exact ⟨hdp b₀ b₁ b₂, solve_bnb_mono (hbnb b₀ b₁ b₂) hfuel⟩

/-- C14 with an array `take` that holds `true` everywhere before the call and a budget of 20
passes. -/
theorem worked_example_witness :
    solve_dp 3 50 example_items [true, true, true] = Run.ret (220, [false, true, true]) ∧
    solve_bnb 20 3 50 example_items [true, true, true] =
      Run.ret (220, [false, true, true]) :=
  worked_example true true true 20 (by decide)

/-- C7. Infeasible root fails fast: when `initial.feasible()` is false, `bnb_optimize` returns
`false` without entering the loop (whatever the step budget), expands no state and leaves
`*best` as it was. -/
theorem infeasible_root_fails_fast (fuel : Nat) (initial best : State)
    (h : initial.feasible = false) :
    bnb_optimize fuel initial best =
      Run.ret { ret := false, best := best, solved := false, expanded := 0 } := by
  simp [bnb_optimize, h]

/-- C7 on a state over capacity: no step is taken and `*best` is untouched. -/
theorem infeasible_root_fails_fast_witness :
    bnb_optimize 0 overweight_state State.blank =
      Run.ret { ret := false, best := State.blank, solved := false, expanded := 0 } :=
  infeasible_root_fails_fast 0 overweight_state State.blank (by decide)

/-! ## Where the narrowing of `goal_weight` breaks the search -/

/-- C3 (failing input). Items `(value 2 ^ 32, weight 2 ^ 31)` and `(value 1, weight 1)` with
`k = 1`: `solve_dp` returns the optimum 1, while in `solve_bnb` the call `left()` on the
initial state computes `goal_weight = (int)(2 ^ 31 + 1) < 0`, finds `right = 1` and fails the
assertion `remaining < items[right].weight` (1 < 1): `solve_bnb` never returns a value. -/
theorem solve_bnb_aborts_where_dp_returns :
    solve_dp 2 1 heavy_items [false, false] = Run.ret (1, [false, true]) ∧
    (∀ fuel : Nat, solve_bnb (fuel + 1) 2 1 heavy_items [false, false] = Run.abort) ∧
    (∀ (fuel : Nat) (r : Int × List Bool),
      solve_bnb fuel 2 1 heavy_items [false, false] ≠ Run.ret r) := by
  have hn : ¬ max_n < 2 := by decide
  have h0 : State.new (make_context 2 1 heavy_items) = some heavy_initial := by decide
  have h1 : heavy_initial.feasible = true := by decide
  have h2 : pq_pop [heavy_initial] = some (heavy_initial, []) := by decide
  have h3 : bnb_body heavy_initial [] false State.blank 0 = none := by decide
  have habort : ∀ fuel : Nat,
      solve_bnb (fuel + 1) 2 1 heavy_items [false, false] = Run.abort := by
    intro fuel
    simp [solve_bnb, hn, h0, bnb_optimize, h1, bnb_loop, pq_push, h2, h3]
  refine ⟨by decide, habort, ?_⟩
  intro fuel r
  cases fuel with
  | zero => simp [solve_bnb, hn, h0, bnb_optimize, h1, bnb_loop]
  | succ fuel => rw [habort fuel]; simp

/-- C8 (failing input). Items `(value 2, weight 1)` and `(value 1, weight 1)` with
`k = INT_MAX`: the initial state is built and is feasible, but `left()` on it computes
`goal_weight = (int)(1 + INT_MAX) = -2 ^ 31`, finds `right = 1` and fails the assertion
`remaining < items[right].weight`: `bnb_optimize` aborts instead of returning `true`. -/
theorem bnb_optimize_aborts_on_feasible_root :
    State.new (make_context 2 INT_MAX wide_items) = some wide_initial ∧
    wide_initial.feasible = true ∧
    wide_initial.left = none ∧
    ∀ (fuel : Nat) (best : State), bnb_optimize (fuel + 1) wide_initial best = Run.abort := by
  have h1 : wide_initial.feasible = true := by decide
  have h2 : pq_pop [wide_initial] = some (wide_initial, []) := by decide
  have h3 : wide_initial.left = none := by decide
  have h4 : wide_initial.leaf = false := by decide
  refine ⟨by decide, h1, h3, ?_⟩
  intro fuel best
  simp [bnb_optimize, h1, bnb_loop, pq_push, h2, bnb_body, h3, h4]

theorem unit_context_wf : WellFormed unit_context := by
  have hi : unit_context.items = [⟨0, 1, 1⟩] := by decide
  refine ⟨by decide, by decide, by decide, ?_, by decide, by decide⟩
  rw [hi]
  exact List.pairwise_singleton _ _

theorem wrapped_context_wf : WellFormed wrapped_context := by
  have hi : wrapped_context.items = [⟨0, 1, 2⟩, ⟨1, 1, 1⟩] := by decide
  refine ⟨by decide, by decide, by decide, ?_, by decide, by decide⟩
  rw [hi]
  simp [density]

/-- C17 (failing input). One item `(value 1, weight 1)` with `k = 2 ^ 31`: the context is well
formed and the state the constructor starts from is feasible, but `goal_weight` is
`(int)(2 ^ 31) = -2 ^ 31`, `upper_bound` returns `right = 0`, `remaining` stays `2 ^ 31` and
the assertion `remaining < items[right].weight` (`2 ^ 31 < 1`) fails: the constructor aborts,
and `solve_bnb` with it. -/
theorem assertion_fails_on_wide_capacity :
    WellFormed unit_context ∧
    (State.start unit_context).feasible = true ∧
    (State.start unit_context).goal_weight = -2 ^ 31 ∧
    (State.start unit_context).right_index = 0 ∧
    (State.start unit_context).remaining1 = 2 ^ 31 ∧
    (item_at unit_context.items 0).weight = 1 ∧
    State.new unit_context = none ∧
    ∀ (fuel : Nat) (take : List Bool),
      solve_bnb fuel 1 (2 ^ 31) unit_items take = Run.abort := by
  have h : State.new (make_context 1 (2 ^ 31) unit_items) = none := by decide
  have hn : ¬ max_n < 1 := by decide
  refine ⟨unit_context_wf, by decide, by decide, by decide,
    by decide, by decide, h, ?_⟩
  intro fuel take
  unfold solve_bnb
  rw [if_neg hn, h]

/-- C18 (failing input). Items `(value 2, weight 1)` and `(value 1, weight 1)` with
`k = 2 ^ 32`: in the feasible state the constructor starts from, `goal_weight` is
`(int)(2 ^ 32) = 0` and `upper_bound` returns `right = 0`, although both items together weigh
2 and fit in the capacity: the largest index whose items fit is 2. -/
theorem right_index_misses_on_wrapped_goal :
    WellFormed wrapped_context ∧
    (State.start wrapped_context).feasible = true ∧
    (State.start wrapped_context).considered_ ≤ wrapped_context.n ∧
    (State.start wrapped_context).goal_weight = 0 ∧
    (State.start wrapped_context).right_index = 0 ∧
    total_weight ((wrapped_context.items.take 2).drop
        (State.start wrapped_context).considered_) ≤
      wrapped_context.k - (State.start wrapped_context).weight_ := by
  refine ⟨wrapped_context_wf, by decide, by decide, by decide,
    by decide, by decide⟩

/-! ## Where the `int` return value loses the result -/

/-- C4 (failing input). With the single item `(value 2 ^ 31, weight 1)`, `solve_bnb` marks
the item and returns `-2 ^ 31`: the `long long` of `best.value()` does not fit in the `int`
that is returned, and the returned value is not the sum of the values of the marked items.
This holds with `k = 1` and with `k = 10 ^ 9`, the instance `1 1000000000 / 2147483648 1` on
the standard input, for which `main` selects `solve_bnb`. -/
theorem solve_bnb_take_counterexample :
    (∀ fuel : Nat, solve_bnb (fuel + 4) 1 1 big_value_items [false] =
      Run.ret (-2 ^ 31, [true])) ∧
    (∀ fuel : Nat, solve_bnb (fuel + 4) 1 (10 ^ 9) big_value_items [false] =
      Run.ret (-2 ^ 31, [true])) ∧
    total_value (marked big_value_items [true]) = 2 ^ 31 ∧
    total_weight (marked big_value_items [true]) ≤ 1 := by
  have h : solve_bnb 4 1 1 big_value_items [false] = Run.ret (-2 ^ 31, [true]) := by decide
  have h' : solve_bnb 4 1 (10 ^ 9) big_value_items [false] = Run.ret (-2 ^ 31, [true]) := by
    decide
  exact ⟨fun fuel => solve_bnb_mono h (Nat.le_add_left 4 fuel),
    fun fuel => solve_bnb_mono h' (Nat.le_add_left 4 fuel), by decide, by decide⟩

/-- C5 (failing input). With the single item `(value 2 ^ 31, weight 1)` and `k = 1`,
`table[1][1]` is `2 ^ 31`, the maximum, and `solve_dp` returns `-2 ^ 31`: the `long long` of
the table does not fit in the `int` that is returned. -/
theorem solve_dp_optimal_counterexample :
    table_at 1 big_value_items 1 1 = some (2 ^ 31) ∧
    IsMaxValue big_value_items 1 (2 ^ 31) ∧
    solve_dp 1 1 big_value_items [false] = Run.ret (-2 ^ 31, [true]) ∧
    ¬ IsMaxValue big_value_items 1 (-2 ^ 31) := by
  refine ⟨by decide, isMaxValue_of_sublists _ _ _ (by decide) (by decide), by decide, ?_⟩
  intro h
  have h1 := h.2 big_value_items (List.Sublist.refl _) (by decide)
  have h3 : total_value big_value_items = 2 ^ 31 := by decide
  rw [h3] at h1
  exact absurd h1 (by decide)

/-- C6 (failing input). With the single item `(value 2 ^ 31, weight 1)` and `k = 1`,
`solve_dp` returns `-2 ^ 31` and marks the item, whose value is `2 ^ 31`: the returned value
is not the sum of the values of the marked items. -/
theorem solve_dp_take_counterexample :
    solve_dp 1 1 big_value_items [false] = Run.ret (-2 ^ 31, [true]) ∧
    total_value (marked big_value_items [true]) = 2 ^ 31 ∧
    (-2 ^ 31 : Int) ≠ total_value (marked big_value_items [true]) := by
  refine ⟨by decide, by decide, by decide⟩

/-- C11 (failing input). A single item that fits, `(value 2 ^ 31, weight 1)` with `k = 1`:
`solve_dp` and `solve_bnb` mark the item and return `-2 ^ 31`, not its value `2 ^ 31`.
(With the value 0 instead, `solve_dp` returns 0 and leaves `take[0]` at `false`: its
backtrace marks an item only when the item raises the value of the table.) -/
theorem single_item_fits_counterexample :
    (item_at big_value_items 0).weight ≤ 1 ∧
    (item_at big_value_items 0).value = 2 ^ 31 ∧
    solve_dp 1 1 big_value_items [false] = Run.ret (-2 ^ 31, [true]) ∧
    (∀ fuel : Nat, solve_bnb (fuel + 4) 1 1 big_value_items [false] =
      Run.ret (-2 ^ 31, [true])) ∧
    solve_dp 1 1 [⟨0, 1, 0⟩] [true] = Run.ret (0, [false]) := by
  have h : solve_bnb 4 1 1 big_value_items [false] = Run.ret (-2 ^ 31, [true]) := by decide
  exact ⟨by decide, by decide, by decide, fun fuel => solve_bnb_mono h (Nat.le_add_left 4 fuel),
    by decide⟩

/-! ## Where the rounding of `double` breaks the bound -/

theorem odd_value_context_wf : WellFormed odd_value_context := by
  have hi : odd_value_context.items = [⟨0, 1, 2 ^ 53 + 1⟩] := by decide
  refine ⟨by decide, by decide, by decide, ?_, by decide, by decide⟩
  rw [hi]
  exact List.pairwise_singleton _ _

/-- C2 (failing input). One item `(value 2 ^ 53 + 1, weight 1)` with `k = 10 ^ 9`: the context is
well formed, the initial state is feasible and its bound is `2 ^ 53`, because
`hv += cv[right - 1] - base_value` converts `2 ^ 53 + 1` to `double`; the leaf that `right()`
builds from it is feasible and has the value `2 ^ 53 + 1`, above the bound. -/
theorem bound_below_feasible_leaf :
    WellFormed odd_value_context ∧
    Reachable odd_value_context odd_value_initial ∧
    odd_value_initial.feasible = true ∧
    odd_value_initial.heuristicValue = 2 ^ 53 ∧
    odd_value_initial.right = some odd_value_leaf ∧
    odd_value_leaf.leaf = true ∧
    odd_value_leaf.feasible = true ∧
    odd_value_leaf.value = 2 ^ 53 + 1 ∧
    odd_value_initial.heuristicValue < odd_value_leaf.value := by
  have h0 : State.new odd_value_context = some odd_value_initial := by decide
  exact ⟨odd_value_context_wf, Reachable.init h0, by decide, by decide, by decide, by decide,
    by decide, by decide, by decide⟩

/-- C9 (failing input). The leaf that takes the only item `(value 2 ^ 53 + 1, weight 1)`:
`considered_ = n`, and `compute_heuristic_value`, which starts with `double hv = value_`,
sets `heuristic_value_` to `2 ^ 53`, one less than `value_`. -/
theorem leaf_bound_rounded :
    (double.of_ll (2 ^ 53 + 1)).num = 2 ^ 53 * (double.of_ll (2 ^ 53 + 1)).den ∧
    State.compute_heuristic_value
        { context_ := odd_value_context, considered_ := 1, value_ := 2 ^ 53 + 1, weight_ := 1,
          heuristic_value_ := 0, taken_ := {0} } = some odd_value_leaf ∧
    odd_value_leaf.considered_ = odd_value_leaf.context_.n ∧
    odd_value_leaf.value_ = 2 ^ 53 + 1 ∧
    odd_value_leaf.heuristic_value_ = 2 ^ 53 ∧
    Reachable odd_value_context odd_value_leaf := by
  have h0 : State.new odd_value_context = some odd_value_initial := by decide
  have h1 : odd_value_initial.right = some odd_value_leaf := by decide
  exact ⟨by decide, by decide, by decide, by decide, by decide,
    Reachable.right (Reachable.init h0) h1⟩

theorem close_context_wf : WellFormed close_context := by
  have hi : close_context.items =
      [⟨0, 217229011, 465262988⟩, ⟨1, 396780943, 849828880⟩] := by decide
  refine ⟨by decide, by decide, by decide, ?_, by decide, by decide⟩
  rw [hi]
  simp only [List.pairwise_cons, List.mem_singleton, forall_eq, List.not_mem_nil,
    IsEmpty.forall_iff, implies_true, List.Pairwise.nil, and_true]
  unfold density
  norm_num

/-- C19 (failing input). Items `(value 465262988, weight 217229011)` and
`(value 849828880, weight 396780943)` with `k = 217229011`, all sums below `2 ^ 31`: the
context is well formed; the initial state, feasible and not terminal, has the bound
465262988 (the first item fills the capacity); `left()` returns a state whose bound is
465262989, because the product `remaining * (double)value`, above `2 ^ 53`, is rounded up
before the division. -/
theorem left_child_bound_exceeds :
    WellFormed close_context ∧
    Reachable close_context close_initial ∧
    close_initial.feasible = true ∧
    close_initial.leaf = false ∧
    close_initial.heuristicValue = 465262988 ∧
    close_initial.left = some close_left ∧
    close_left.heuristicValue = 465262989 ∧
    ¬ (close_left.heuristicValue ≤ close_initial.heuristicValue) := by
  have h0 : State.new close_context = some close_initial := by decide
  exact ⟨close_context_wf, Reachable.init h0, by decide, by decide, by decide, by decide,
    by decide, by decide⟩

/-- C1 (failing input). Items `(value 2 ^ 53, weight 1)` and `(value 2 ^ 53 + 1, weight 2)`
with `k = 2`: the second item alone is the best selection, of value `2 ^ 53 + 1`, and
`solve_dp` marks it.  `solve_bnb` returns with the first item marked, of value `2 ^ 53`: the
state that skips the first item gets the bound `2 ^ 53` (the `double` nearest to
`2 ^ 53 + 1`) and is pruned against the leaf of value `2 ^ 53` found before it.  The same
happens with the weights and the capacity multiplied by `10 ^ 8`, where `main` selects
`solve_bnb`. -/
theorem solve_bnb_misses_optimum :
    IsMaxValue precise_items 2 (2 ^ 53 + 1) ∧
    (∀ fuel : Nat, solve_bnb (fuel + 5) 2 2 precise_items [false, false] =
      Run.ret (0, [true, false])) ∧
    total_value (marked precise_items [true, false]) = 2 ^ 53 ∧
    solve_dp 2 2 precise_items [false, false] = Run.ret (1, [false, true]) ∧
    total_value (marked precise_items [false, true]) = 2 ^ 53 + 1 ∧
    IsMaxValue precise_wide_items (2 * 10 ^ 8) (2 ^ 53 + 1) ∧
    (∀ fuel : Nat, solve_bnb (fuel + 5) 2 (2 * 10 ^ 8) precise_wide_items [false, false] =
      Run.ret (0, [true, false])) ∧
    total_value (marked precise_wide_items [true, false]) = 2 ^ 53 := by
  have h : solve_bnb 5 2 2 precise_items [false, false] = Run.ret (0, [true, false]) := by
    decide
  have h' : solve_bnb 5 2 (2 * 10 ^ 8) precise_wide_items [false, false] =
      Run.ret (0, [true, false]) := by
    decide
  exact ⟨isMaxValue_of_sublists _ _ _ (by decide) (by decide),
    fun fuel => solve_bnb_mono h (Nat.le_add_left 5 fuel), by decide, by decide, by decide,
    isMaxValue_of_sublists _ _ _ (by decide) (by decide),
    fun fuel => solve_bnb_mono h' (Nat.le_add_left 5 fuel), by decide⟩

/-! ## The bound: passed assertions, leaves, bisection -/

theorem compute_eq (s : State)
    (h1 : s.right_index > s.considered_ → 0 ≤ s.remaining1)
    (h2 : s.right_index < s.context_.n →
      s.remaining1 < (item_at s.context_.items s.right_index).weight) :
    s.compute_heuristic_value = some { s with heuristic_value_ := s.hv_final.ceil_ll } := by
  unfold State.compute_heuristic_value
  rw [if_neg (fun h => h.2 (h1 h.1)), if_neg (fun h => h.2 (h2 h.1))]

theorem right_index_leaf (s : State) (h : s.considered_ = s.context_.n) :
    s.right_index = s.considered_ := by
  unfold State.right_index
  rw [h]
  exact upper_bound_self _ _ _

/-- On a state with `considered_ = n` no assertion is evaluated and the bound is the
conversion of `value_` to `double` and back. -/
theorem compute_leaf (s : State) (h : s.considered_ = s.context_.n) :
    s.compute_heuristic_value =
      some { s with heuristic_value_ := (double.of_ll s.value_).ceil_ll } := by
  have hr := right_index_leaf s h
  have e : s.hv_final = double.of_ll s.value_ := by
    unfold State.hv_final State.hv_whole
    rw [hr, if_neg (by omega), if_neg (lt_irrefl _)]
  rw [compute_eq s (by rw [hr]; intro h'; exact absurd h' (lt_irrefl _))
    (by rw [hr, h]; intro h'; exact absurd h' (lt_irrefl _)), e]

theorem double_round_den_pos (p : Int) (q : Nat) : 0 < (double.round p q).den := by
  unfold double.round
  by_cases hp : p = 0
  · rw [if_pos hp]
    decide
  · rw [if_neg hp]
    by_cases he : 0 ≤ (round_significand p.natAbs q).2
    · simp only [if_pos he]
      decide
    · simp only [if_neg he]
      positivity

/-- A leaf whose value has at most 53 binary digits gets its value as bound. -/
theorem leaf_bound_small (s : State) (h : s.considered_ = s.context_.n)
    (hv : s.value_.natAbs < 2 ^ 53) :
    s.compute_heuristic_value = some { s with heuristic_value_ := s.value_ } := by
  have e := double_of_ll_exact s.value_ hv
  have hd : (0 : Int) < ((double.of_ll s.value_).den : Int) := by
    exact_mod_cast double_round_den_pos s.value_ 1
  have hc : -((-(double.of_ll s.value_).num) / ((double.of_ll s.value_).den : Int)) =
      s.value_ := by
    rw [e, ← neg_mul, Int.mul_ediv_cancel _ (ne_of_gt hd), neg_neg]
  have hr : (double.of_ll s.value_).ceil_ll = s.value_ := by
    unfold double.ceil_ll
    rw [hc]
    have h1 : (2 : Int) ^ 53 ≤ 2 ^ 63 := by norm_num
    have h2 : (0 : Int) < 2 ^ 53 := by norm_num
    rw [if_pos ⟨by omega, by omega⟩]
  rw [compute_leaf s h, hr]

theorem upper_bound_from_first (a : List Int) (val : Int) :
    ∀ (fuel first len : Nat), (∀ j, first ≤ j → j < first + len → val < ll_at a j) →
      upper_bound_from a val fuel first len = first := by
  intro fuel
  induction fuel with
  | zero => intro first len _; rfl
  | succ fuel ih =>
    intro first len h
    unfold upper_bound_from
    split_ifs with h0 h1
    · rfl
    · exact ih first (len / 2) (fun j hj1 hj2 => h j hj1 (by omega))
    · exact absurd (h (first + len / 2) (by omega) (by omega)) h1

/-- When every element of the range is greater than `val`, the bisection ends on the first
position. -/
theorem upper_bound_first (a : List Int) (first last : Nat) (val : Int)
    (hv : ∀ j, first ≤ j → j < last → val < ll_at a j) :
    upper_bound a first last val = first := by
  unfold upper_bound
  exact upper_bound_from_first a val _ first _ (fun j h1 h2 => hv j h1 (by omega))

/-! ## A single item that is too heavy -/

theorem make_context_single (k : Int) (x : item_t) :
    make_context 1 k [x] = single_context k x := by
  simp [make_context, sort_items, insert_sorted, cumulative, cumulative_from, single_context]

/-- The search on a single item heavier than the capacity: the initial state is built, its
left child is the only state pushed, and `bnb_optimize` returns after three passes with that
leaf, in which nothing is taken. -/
theorem bnb_single_heavy (k : Int) (x : item_t) (hk : 0 ≤ k) (hw : k < x.weight)
    (hmax : x.weight ≤ LLONG_MAX) (f : Nat) :
    ∃ (initial best : State),
      State.new (make_context 1 k [x]) = some initial ∧
      bnb_optimize (f + 3) initial State.blank =
        Run.ret { ret := true, best := best, solved := true, expanded := 1 } ∧
      best.value = 0 ∧ best.taken_ = ∅ ∧ best.context_ = make_context 1 k [x] := by
  have hkll : to_ll k = k := by
    apply to_ll_eq_self
    · have : (0 : Int) ≤ 2 ^ 63 := by norm_num
      omega
    · unfold LLONG_MAX at hmax
      omega
  have hwll : to_ll x.weight = x.weight := by
    apply to_ll_eq_self
    · have : (0 : Int) ≤ 2 ^ 63 := by norm_num
      omega
    · unfold LLONG_MAX at hmax
      omega
  rw [make_context_single]
  -- the initial state
  have hr0 : (State.start (single_context k x)).right_index = 0 := by
    have hg : (State.start (single_context k x)).goal_weight = to_int k := by
      simp [State.goal_weight, State.base_weight, State.remaining0, State.start,
        single_context, hkll]
    have hlt : (State.start (single_context k x)).goal_weight <
        ll_at (single_context k x).cumulative_weight 0 := by
      rw [hg]
      exact lt_of_le_of_lt (to_int_le hk) (by simpa [single_context, ll_at] using hw)
    refine upper_bound_first _ 0 1 _ (fun j _ hj => ?_)
    have hj0 : j = 0 := by omega
    rw [hj0]
    exact hlt
  have hrem0 : (State.start (single_context k x)).remaining1 = k := by
    unfold State.remaining1
    rw [hr0, if_neg (by simp [State.start])]
    simp [State.remaining0, State.start, single_context, hkll]
  have hnew : State.new (single_context k x) = some
      { State.start (single_context k x) with
        heuristic_value_ := (State.start (single_context k x)).hv_final.ceil_ll } := by
    apply compute_eq (State.start (single_context k x))
    · rw [hr0]
      intro h
      simp [State.start] at h
    · intro _
      rw [hrem0, hr0]
      simpa [single_context, State.start, item_at] using hw
  generalize hroot : ({ State.start (single_context k x) with
      heuristic_value_ := (State.start (single_context k x)).hv_final.ceil_ll } : State) = root
    at hnew
  have hlr : root.leaf = false := by
    rw [← hroot]
    simp [State.leaf, State.start, single_context]
  have hfr : root.feasible = true := by
    rw [← hroot]
    simp [State.feasible, State.start, single_context, hk]
  -- its children
  have hleft : ∃ L, root.left = some L ∧ L.feasible = true ∧ L.leaf = true ∧ L.value = 0 ∧
      L.taken_ = ∅ ∧ L.context_ = single_context k x := by
    have hl : root.left = State.compute_heuristic_value
        { root with considered_ := root.considered_ + 1 } := by
      unfold State.left
      rw [hlr, hfr]
      rfl
    rw [compute_leaf _ (by rw [← hroot]; simp [State.start, single_context])] at hl
    refine ⟨_, hl, ?_, ?_, ?_, ?_, ?_⟩
    all_goals rw [← hroot]
    all_goals simp [State.feasible, State.leaf, State.value, State.start, single_context, hk]
  have hright : ∃ R, root.right = some R ∧ R.feasible = false := by
    have hr : root.right = State.compute_heuristic_value
        { root with
          considered_ := root.considered_ + 1
          value_ := to_ll (root.value_ + (item_at root.context_.items root.considered_).value)
          weight_ := to_ll (root.weight_ + (item_at root.context_.items root.considered_).weight)
          taken_ := insert root.considered_ root.taken_ } := by
      unfold State.right
      rw [hlr, hfr]
      rfl
    rw [compute_leaf _ (by rw [← hroot]; simp [State.start, single_context])] at hr
    refine ⟨_, hr, ?_⟩
    rw [← hroot]
    simp [State.feasible, State.start, single_context, item_at, hwll, hw]
  obtain ⟨L, hL, hLf, hLl, hLv, hLt, hLc⟩ := hleft
  obtain ⟨R, hR, hRf⟩ := hright
  refine ⟨root, L, hnew, ?_, hLv, hLt, hLc⟩
  simp [bnb_optimize, bnb_loop, pq_push, pq_pop, bnb_body, hfr, hlr, hL, hR, hLf, hLl, hRf]

theorem all_cells_map {α : Type} (f : α → Int) (l : List α) :
    all_cells (l.map (fun a => some (f a))) = some (l.map f) := by
  induction l with
  | nil => rfl
  | cons a l ih => simp [all_cells, ih]

theorem ll_at_zero_row (l : List Nat) (j : Nat) : ll_at (l.map (fun _ => (0 : Int))) j = 0 := by
  unfold ll_at
  rw [List.getD_eq_getElem?_getD]
  cases h : (l.map (fun _ => (0 : Int)))[j]? with
  | none => rfl
  | some v =>
    rw [List.getElem?_eq_some] at h
    obtain ⟨hj, hv⟩ := h
    simp at hv
    simp [← hv]

theorem ll_at_replicate_zero (m j : Nat) : ll_at (List.replicate m 0) j = 0 := by
  unfold ll_at
  rw [List.getD_eq_getElem?_getD]
  by_cases h : j < m
  · rw [List.getElem?_eq_getElem (by simpa using h)]
    simp
  · rw [List.getElem?_eq_none (by simpa using h)]
    rfl

/-- A row of the table that no item can change: when the item of the row is heavier than
every column, the row holds zeros where the row before does. -/
theorem dp_row_heavy (prev : List Int) (x : item_t) (k : Int) (hw : k < x.weight)
    (hprev : ∀ j, ll_at prev j = 0) :
    dp_row prev x k = some ((List.range (k + 1).toNat).map (fun _ => (0 : Int))) := by
  unfold dp_row
  rw [← all_cells_map]
  congr 1
  apply List.map_congr_left
  intro j hj
  rw [List.mem_range] at hj
  by_cases h0 : j = 0
  · rw [if_pos h0]
  · rw [if_neg h0]
    unfold dp_cell
    have : ¬ x.weight ≤ (j : Int) := by omega
    rw [if_neg this, hprev]

/-- C12 (amended). Single item that is too heavy: for `n = 1`, `k ≥ 0` and an item of weight
above `k` (carrying its input position 0 as `index`), `solve_bnb` returns 0 and sets
`take[0]` to `false` (three passes of its loop are enough), also for capacities beyond
`INT_MAX`; `solve_dp` does so when `k < INT_MAX`, the range in which its `int` column counter
can leave the inner loop. -/
theorem single_item_too_heavy (k : Int) (x : item_t) (take : List Bool) (fuel : Nat)
    (hk : 0 ≤ k) (hw : k < x.weight) (hmax : x.weight ≤ LLONG_MAX) (hidx : x.index = 0)
    (hfuel : 3 ≤ fuel) :
    (k < INT_MAX → solve_dp 1 k [x] take = Run.ret (0, take.set 0 false)) ∧
    solve_bnb fuel 1 k [x] take = Run.ret (0, take.set 0 false) := by
  constructor
  · intro hki
    have hrow0 : table_row k [x] 0 = some (List.replicate (k + 1).toNat 0) := rfl
    have hrow1 : table_row k [x] 1 =
        some ((List.range (k + 1).toNat).map (fun _ => (0 : Int))) := by
      show (match table_row k [x] 0 with
        | none => none
        | some prev => dp_row prev (item_at [x] 0) k) = _
      rw [hrow0]
      exact dp_row_heavy _ _ _ (by simpa [item_at] using hw) (ll_at_replicate_zero _)
    have ht1 : table_at k [x] 1 k = some 0 := by
      simp only [table_at, hrow1, row_at]
      rw [if_pos ⟨hk, by simp⟩, ll_at_zero_row]
    have ht0 : table_at k [x] 0 k = some 0 := by
      simp only [table_at, hrow0, row_at]
      rw [if_pos ⟨hk, by simp⟩, ll_at_replicate_zero]
    have hto : to_int k = k := by
      apply to_int_eq_self
      · have : (0 : Int) ≤ 2 ^ 31 := by norm_num
        omega
      · unfold INT_MAX at hki
        omega
    have hbt : backtrace k [x] 1 (to_int k) take = some (take.set 0 false) := by
      rw [hto]
      unfold backtrace
      rw [ht1, ht0]
      simp [backtrace]
    unfold solve_dp
    rw [if_neg (by omega), if_neg (by omega), ht1, hbt]
    rfl
  · obtain ⟨d, rfl⟩ := Nat.exists_eq_add_of_le hfuel
    obtain ⟨initial, best, h1, h2, h3, h4, h5⟩ := bnb_single_heavy k x hk hw hmax d
    rw [Nat.add_comm] at h2
    have hn : ¬ max_n < 1 := by decide
    unfold solve_bnb
    rw [if_neg hn, h1]
    simp only [h2]
    have hb : best.to_boolean_array = [false] := by
      unfold State.to_boolean_array
      rw [h5, h4]
      simp [make_context]
    rw [h3, hb, make_context_single, show List.range 1 = [0] from rfl]
    simp [write_back, single_context, item_at, hidx, to_int]

/-- C12 on the example of the specification: the item `(value 60, weight 10)` with `k = 5`
gives the value 0 and `take = [0]`. -/
theorem single_item_too_heavy_witness :
    solve_dp 1 5 [⟨0, 10, 60⟩] [true] = Run.ret (0, [false]) ∧
    solve_bnb 3 1 5 [⟨0, 10, 60⟩] [true] = Run.ret (0, [false]) :=
  ⟨(single_item_too_heavy 5 ⟨0, 10, 60⟩ [true] 3 (by decide) (by decide) (by decide) rfl
      (by decide)).1 (by decide),
    (single_item_too_heavy 5 ⟨0, 10, 60⟩ [true] 3 (by decide) (by decide) (by decide) rfl
      (by decide)).2⟩

/-- A single item heavier than the capacity `k = INT_MAX`: `solve_bnb` returns 0 with
`take = [0]`, but `solve_dp` has no result, its counter `int j` cannot pass `INT_MAX` to
leave the loop `for(int j = 1; j <= k; j ++)`. -/
theorem single_item_too_heavy_counterexample :
    (0 : Int) ≤ INT_MAX ∧ INT_MAX < (item_at [(⟨0, 2 ^ 31, 1⟩ : item_t)] 0).weight ∧
    solve_dp 1 INT_MAX [⟨0, 2 ^ 31, 1⟩] [true] = Run.undefined ∧
    solve_bnb 3 1 INT_MAX [⟨0, 2 ^ 31, 1⟩] [true] = Run.ret (0, [false]) := by
  refine ⟨by decide, by decide, ?_, by decide⟩
  unfold solve_dp
  rw [if_neg (by decide), if_pos (by decide)]

/-! ## Capacity zero -/

theorem write_back_cons (items : List item_t) (buf : List Bool) (i : Nat) (is : List Nat)
    (take : List Bool) :
    write_back items buf (i :: is) take =
      write_back items buf is (take.set (item_at items i).index (buf.getD i false)) := rfl

theorem write_back_length (items : List item_t) (buf : List Bool) (is : List Nat)
    (take : List Bool) : (write_back items buf is take).length = take.length := by
  induction is generalizing take with
  | nil => rfl
  | cons i is ih => rw [write_back_cons, ih, List.length_set]

theorem to_ll_zero : to_ll 0 = 0 := by decide

end Discopt
